import Mathlib

/-!
Verification of the entity component storage engine (src/EntitySystem.js).

The engine stores entities in packed Float64Array tables.  We embed the
storage as `Array Int`: every value the engine keeps in a cell is an exact
integer (mask words below 2 to the 53, row offsets, entity ids, and the -1
sentinels), and field values are opaque numbers that the engine only moves
around, so an integer value domain is faithful for the properties at hand.
Typed-array access semantics are kept: an out-of-range write is discarded
and an out-of-range read yields the neutral value 0 (JS yields `undefined`,
which the engine only ever feeds into `& 1`, where it behaves like 0).

BigInt mask arithmetic is embedded on `Nat` (all masks are non-negative);
mask words are read from cells with `Int.toNat`, mirroring `BigInt(cell)`
on the non-negative integer cells the engine maintains.

Callbacks are embedded as opaque numeric identifiers; instead of invoking
a function, the dispatcher appends the invocation to an event trace in the
system state.
-/

deriving instance DecidableEq for Except

set_option maxRecDepth 100000

namespace Entity

/-- Typed-array read: in range gives the stored cell, out of range gives 0. -/
def getCell (a : Array Int) (i : Int) : Int :=
  if h : 0 ≤ i ∧ i.toNat < a.size then a.get ⟨i.toNat, h.2⟩ else 0

/-- Typed-array write: out-of-range writes are discarded, as for Float64Array. -/
def setCell (a : Array Int) (i v : Int) : Array Int :=
  if h : 0 ≤ i ∧ i.toNat < a.size then a.set ⟨i.toNat, h.2⟩ v else a

/-- JS `cell & 1` (the entity liveness sentinel bit). -/
def bit0 (v : Int) : Int := v % 2

/-- JS `cell &= ~1`: clear bit 0 of an integer cell (two us complement). -/
def clearBit0 (v : Int) : Int := v - v % 2

/-- BigInt `a & ~m` on the non-negative mask words: clear the bits of `m`
in `a`.  Written with xor and and (both kernel-computable on `Nat`); it
agrees with `Nat.ldiff` (`bclear_eq_ldiff` below). -/
def bclear (a m : Nat) : Nat := a ^^^ (a &&& m)

/-- Allocator and bookkeeping state of one table (JS `TableState`).
`skipOnRemove = none` models the JS value `Infinity`. -/
structure TState where
  sizeOf : Nat
  rowCounter : Nat
  removeCounter : Nat
  combinedMask : Nat
  isEntityTable : Bool
  skipOnRemove : Option Nat
deriving DecidableEq, Repr

/-- Fresh table state (the JS `TableState` constructor). -/
def TState.init (sizeOf : Nat) (combinedMask : Nat) : TState :=
  { sizeOf := sizeOf
    rowCounter := 0
    removeCounter := 0
    combinedMask := combinedMask
    isEntityTable := combinedMask = 0
    skipOnRemove := none }

/-- The per-row emptiness test of the free-slot scan in `insertRow`:
bit 0 clear for the index table, negative column 0 for data tables. -/
def emptyRow (arr : Array Int) (s : Nat) (isEnt : Bool) (i : Nat) : Bool :=
  if isEnt then bit0 (getCell arr (i * s)) = 0 else getCell arr (i * s) < 0

/-- First empty row in `[lo, lo + count)`, the linear scan of `insertRow`. -/
def findFree (arr : Array Int) (s : Nat) (isEnt : Bool) : Nat → Nat → Option Nat
  | _, 0 => none
  | lo, count + 1 =>
    if emptyRow arr s isEnt lo then some lo else findFree arr s isEnt (lo + 1) count

/-- The growth step at the end of `insertRow`: when the row does not fit,
the backing array is doubled, copying every slot (the new half is zero,
as a fresh Float64Array is zero-initialised). -/
def growIfNeeded (arr : Array Int) (id s : Nat) : Array Int :=
  if id * s ≥ arr.size then arr ++ Array.mkArray arr.size 0 else arr

/-- JS `TableState.insertRow(at)`.  Returns the allocated row index together
with the updated backing array and table state; the fatal allocator
inconsistency (positive `removeCounter` but no free slot found by the scan,
which also happens when `skipOnRemove` is `Infinity`) is an error. -/
def TState.insertRow (ts : TState) (arr : Array Int) (at? : Option Nat) :
    Except String (Nat × Array Int × TState) := do
  let (id, ts') ←
    match at? with
    | some a =>
      pure (a, if a > ts.rowCounter then { ts with rowCounter := a + 1 } else ts)
    | none =>
      if ts.removeCounter > 0 then
        match ts.skipOnRemove with
        | none => Except.error "Illegal State: could not find empty slot but removeCounter > 0"
        | some k =>
          match findFree arr ts.sizeOf ts.isEntityTable k (ts.rowCounter - k) with
          | none => Except.error "Illegal State: could not find empty slot but removeCounter > 0"
          | some i =>
            let rc := ts.removeCounter - 1
            pure (i, { ts with
              removeCounter := rc
              skipOnRemove := if rc = 0 then none else ts.skipOnRemove })
      else
        pure (ts.rowCounter, { ts with rowCounter := ts.rowCounter + 1 })
  pure (id, growIfNeeded arr id ts'.sizeOf, ts')

/-- JS `TableState.removeRow(row)`: clear the liveness sentinel, count the
free slot and lower the scan hint. -/
def TState.removeRow (ts : TState) (arr : Array Int) (row : Nat) : Array Int × TState :=
  let k : Int := (row * ts.sizeOf : Nat)
  let arr :=
    if ts.isEntityTable then setCell arr k (clearBit0 (getCell arr k))
    else setCell arr k (-1)
  (arr, { ts with
    removeCounter := ts.removeCounter + 1
    skipOnRemove := some (match ts.skipOnRemove with | none => row | some k2 => min k2 row) })

/-! ## Configuration and the component registry -/

/-- One entry of the `Layout` configuration list. -/
structure LayoutEntry where
  components : List String
  size : Nat
deriving DecidableEq, Repr

/-- The raw configuration (`EntitySystemConfig`): component name to ordered
prop-name list, an optional layout, and the initial entity allocation.
JS object key order is the list order. -/
structure Config where
  Components : List (String × List String)
  Layout : Option (List LayoutEntry)
  entityCount : Nat := 1024
deriving DecidableEq, Repr

/-- Registry record of one component (the JS `components` map entries). -/
structure CompCfg where
  name : String
  propNames : List String
  arrayIndex : Int
  mask : Nat
deriving DecidableEq, Repr

/-- Registry record of one prop (`PropConfig`, the `componentsByProp` entries). -/
structure PropCfg where
  component : String
  name : String
  array : Int
  offset : Int
  sizeOf : Nat
  componentMask : Nat
deriving DecidableEq, Repr

/-- The prop-name validation of `loadConfig`: one prop entry per name, with
an error for an empty name, the reserved names, and a duplicate. -/
def loadProps (component : String) (names : List String) (acc : List PropCfg) :
    Except String (List PropCfg) :=
  match names with
  | [] => pure acc
  | n :: ns => do
    if n.length = 0 then
      Except.error "Invalid prop name: Must be a non-empty String"
    else if n = "_" ∨ n = "_id" then
      Except.error "Invalid prop name: _ and _id are reserved for internal purposes"
    else if (acc.find? (·.name = n)).isSome then
      Except.error "Config-Error: prop already defined for a Component"
    else
      loadProps component ns
        (acc ++ [{ component := component, name := n, array := -1, offset := -1,
                   sizeOf := 0, componentMask := 0 }])

/-- The component loop of `loadConfig`, building both registry maps in
insertion order.  (JS `Map` iteration order is insertion order; config
component names are the keys of a JS object and hence distinct.) -/
def loadComps (cs : List (String × List String)) (comps : List CompCfg)
    (props : List PropCfg) : Except String (List CompCfg × List PropCfg) :=
  match cs with
  | [] => pure (comps, props)
  | (name, propNames) :: rest => do
    let props ← loadProps name propNames props
    loadComps rest
      (comps ++ [{ name := name, propNames := propNames, arrayIndex := -1, mask := 0 }]) props

/-- JS `MAX_ENTITY`, the default layout row count. -/
def MAX_ENTITY : Nat := 1024

/-- JS `loadConfig(raw)`: validate and return maps plus the effective layout. -/
def loadConfig (raw : Config) :
    Except String (List CompCfg × List PropCfg × List LayoutEntry × Nat) := do
  let layout :=
    match raw.Layout with
    | some l => l
    | none => [{ components := raw.Components.map (·.1), size := MAX_ENTITY }]
  let (comps, props) ← loadComps raw.Components [] []
  pure (comps, props, layout, raw.entityCount)

/-- Point update of the component registry at a name (JS mutates the map entry). -/
def setComp (cs : List CompCfg) (nm : String) (f : CompCfg → CompCfg) : List CompCfg :=
  cs.map fun c => if c.name = nm then f c else c

/-- Point update of the prop registry at a name. -/
def setProp (ps : List PropCfg) (nm : String) (f : PropCfg → PropCfg) : List PropCfg :=
  ps.map fun p => if p.name = nm then f p else p

/-- The inner prop loop of the constructor table pass: assign the component
mask, the table index and the sequential intra-row offset to each prop, and
OR the component mask into the combined mask once per prop. -/
def procProps (props : List PropCfg) (names : List String) (i : Int) (cmask : Nat)
    (offset : Int) (combined : Nat) : List PropCfg × Int × Nat :=
  match names with
  | [] => (props, offset, combined)
  | n :: ns =>
    procProps
      (setProp props n fun p =>
        { p with componentMask := cmask, array := i, offset := offset })
      ns i cmask (offset + 1) (combined ||| cmask)

/-- The component loop of the constructor table pass: assign table index and
bit mask to each listed component, shifting the running mask left once per
component.  A name missing from the registry is the JS TypeError on
destructuring `undefined`. -/
def procTableComps (comps : List CompCfg) (props : List PropCfg) (names : List String)
    (i : Int) (mask : Nat) (offset : Int) (combined : Nat) :
    Except String (List CompCfg × List PropCfg × Int × Nat) :=
  match names with
  | [] => pure (comps, props, offset, combined)
  | nm :: rest =>
    match comps.find? (·.name = nm) with
    | none => Except.error "TypeError: component in layout is not configured"
    | some entry =>
      let comps := setComp comps nm fun c => { c with arrayIndex := i, mask := mask }
      let (props, offset, combined) := procProps props entry.propNames i mask offset combined
      procTableComps comps props rest i (mask <<< 1) offset combined

/-- The guard `components.size > 52` of the constructor.  `components` is a
JS Array, its `size` property is `undefined`, and `undefined > 52` is
`false`: the guard can never fire.  We embed that comparison result. -/
def componentsSizeGuard (_components : List String) : Bool := false

/-! ## The entity system state -/

/-- One fired callback invocation `(fn, entity, before, newValue)`.  The JS
engine calls the function; we record the call in a trace. -/
structure Evt where
  fn : Nat
  entity : Nat
  before : Nat
  newValue : Nat
deriving DecidableEq, Repr

/-- The whole engine state (the JS `EntitySystem` object).  `tables.get a`
is `none` for a table slot the constructor left `null` (a layout table all
of whose components are tags); otherwise it carries the backing array `c<a>`
paired with the table state `s<a>`.  Handlers are `(mask, fn)` pairs in
registration order; `entryFired`/`exitFired` are the callback traces. -/
structure EntitySystem where
  comps : List CompCfg
  props : List PropCfg
  maskSize : Nat
  e : Array Int
  s : TState
  tables : List (Option (Array Int × TState))
  entryHandlers : List (Nat × Nat)
  exitHandlers : List (Nat × Nat)
  entryFired : List Evt
  exitFired : List Evt
deriving DecidableEq, Repr

/-- JS `this[TABLE_NAMES[a]]` / `this[TABLE_STATE_NAMES[a]]`: the data table
at an index, `none` when the slot is `null` or the index is out of range. -/
def EntitySystem.tableAt (S : EntitySystem) (a : Int) : Option (Array Int × TState) :=
  if 0 ≤ a then (S.tables.getD a.toNat none) else none

/-- Replace the table slot at an index. -/
def EntitySystem.setTable (S : EntitySystem) (a : Int) (arr : Array Int) (ts : TState) :
    EntitySystem :=
  { S with tables := S.tables.set a.toNat (some (arr, ts)) }

/-- The table loop of the `EntitySystem` constructor: for each layout entry,
run the dead capacity guard, assign bits and offsets, and create the backing
array and table state when the entry has at least one prop
(`offset > 1`); otherwise leave the slot `null`. -/
def buildTables (comps : List CompCfg) (props : List PropCfg)
    (layout : List LayoutEntry) (i : Nat) :
    Except String (List CompCfg × List PropCfg × List (Option (Array Int × TState))) :=
  match layout with
  | [] => pure (comps, props, [])
  | entry :: rest => do
    if componentsSizeGuard entry.components then
      Except.error "There can be at most 52 entities per table."
    else
      let mask : Nat := if i = 0 then 2 else 1
      let (comps, props, offset, combined) ←
        procTableComps comps props entry.components (i : Int) mask 1 0
      let slot : Option (Array Int × TState) :=
        if offset > 1 then
          some (Array.mkArray (offset.toNat * entry.size) 0, TState.init offset.toNat combined)
        else none
      let (comps, props, slots) ← buildTables comps props rest (i + 1)
      pure (comps, props, slot :: slots)

/-- The final constructor pass: record every table row width on its props.
A prop whose component was never placed by the layout has `array = -1`,
where JS dereferences `undefined.sizeOf` and throws. -/
def finalizeProps (tables : List (Option (Array Int × TState))) :
    List PropCfg → Except String (List PropCfg)
  | [] => pure []
  | p :: ps => do
    match (if 0 ≤ p.array then tables.getD p.array.toNat none else none) with
    | none => Except.error "TypeError: prop has no table"
    | some (_, ts) =>
      let ps ← finalizeProps tables ps
      pure ({ p with sizeOf := ts.sizeOf } :: ps)

/-- The JS `EntitySystem(rawConfig)` constructor. -/
def EntitySystem.init (raw : Config) : Except String EntitySystem := do
  let (comps, props, layout, entityCount) ← loadConfig raw
  let maskSize := layout.length
  let entityTableSizeOf := maskSize * 2
  let (comps, props, tables) ← buildTables comps props layout 0
  let props ← finalizeProps tables props
  pure
    { comps := comps
      props := props
      maskSize := maskSize
      e := Array.mkArray (entityTableSizeOf * entityCount) 0
      s := TState.init entityTableSizeOf 0
      tables := tables
      entryHandlers := []
      exitHandlers := []
      entryFired := []
      exitFired := [] }

/-! ## Transition dispatcher -/

/-- The matching pass of `runEntryHandlers`: the invocations fired for one
mask update, in handler registration order. -/
def matchEntry (hs : List (Nat × Nat)) (entity before newValue : Nat) : List Evt :=
  hs.filterMap fun mf =>
    if (newValue &&& mf.1) = mf.1 ∧ (before &&& mf.1) ≠ mf.1 then
      some ⟨mf.2, entity, before, newValue⟩
    else none

/-- The matching pass of `runExitHandlers`. -/
def matchExit (hs : List (Nat × Nat)) (entity before newValue : Nat) : List Evt :=
  hs.filterMap fun mf =>
    if (newValue &&& mf.1) ≠ mf.1 ∧ (before &&& mf.1) = mf.1 then
      some ⟨mf.2, entity, before, newValue⟩
    else none

/-- JS `runEntryHandlers`: run (here: trace) every matching entry callback. -/
def EntitySystem.runEntry (S : EntitySystem) (entity before newValue : Nat) : EntitySystem :=
  { S with entryFired := S.entryFired ++ matchEntry S.entryHandlers entity before newValue }

/-- JS `runExitHandlers`. -/
def EntitySystem.runExit (S : EntitySystem) (entity before newValue : Nat) : EntitySystem :=
  { S with exitFired := S.exitFired ++ matchExit S.exitHandlers entity before newValue }

/-- JS `removeHandler(handlers, handlerFn)`: keep, in order, every
`(mask, fn)` pair whose callback differs from the deregistered one. -/
def removeHandler : List (Nat × Nat) → Nat → List (Nat × Nat)
  | [], _ => []
  | (m, fn) :: rest, fnh =>
    if fn ≠ fnh then (m, fn) :: removeHandler rest fnh else removeHandler rest fnh

/-- JS `onEnter(mask, fn)`: append the pair to the entry handler list.  (The
returned cleanup closure is modelled by `offEnter` below.) -/
def EntitySystem.onEnter (S : EntitySystem) (mask fn : Nat) : EntitySystem :=
  { S with entryHandlers := S.entryHandlers ++ [(mask, fn)] }

/-- Invoking the deregistration handle returned by `onEnter(mask, fn)`. -/
def EntitySystem.offEnter (S : EntitySystem) (fn : Nat) : EntitySystem :=
  { S with entryHandlers := removeHandler S.entryHandlers fn }

/-- JS `onExit(mask, fn)`. -/
def EntitySystem.onExit (S : EntitySystem) (mask fn : Nat) : EntitySystem :=
  { S with exitHandlers := S.exitHandlers ++ [(mask, fn)] }

/-- Invoking the deregistration handle returned by `onExit(mask, fn)`. -/
def EntitySystem.offExit (S : EntitySystem) (fn : Nat) : EntitySystem :=
  { S with exitHandlers := removeHandler S.exitHandlers fn }

/-! ## Mutation operations -/

/-- JS `exists(entity)`: bit 0 of the first mask word of the entity row. -/
def EntitySystem.existsEnt (S : EntitySystem) (entity : Nat) : Bool :=
  bit0 (getCell S.e (((entity * S.s.sizeOf : Nat) : Int))) ≠ 0

/-- The initialisation loop of `newEntity`: word 0 gets the exists bit, the
other mask words 0, and every row-offset word -1. -/
def zeroEntityRow (e : Array Int) (offset : Int) (maskSize : Nat) : Array Int :=
  let e := (List.range maskSize).foldl
    (fun acc (i : Nat) => setCell acc (offset + (i : Int)) (if i = 0 then 1 else 0)) e
  (List.range maskSize).foldl
    (fun acc (i : Nat) => setCell acc (offset + (maskSize : Int) + (i : Int)) (-1)) e

/-- A template is the ordered key/value list of a JS template object:
the reserved tag-list key `_`, the ignored `_id` key, and prop entries. -/
inductive TEntry where
  | tags (cs : List String)
  | idKey (v : Int)
  | field (name : String) (value : Int)
deriving DecidableEq, Repr

/-- JS `addComponent(entity, name)`.  Note (source line 1761): when a row is
allocated, the offset word receives the raw row index `componentRow` while
the back reference is written at `componentRow * sizeOf`. -/
def EntitySystem.addComponent (S : EntitySystem) (entity : Nat) (name : String) :
    Except String EntitySystem := do
  match S.comps.find? (·.name = name) with
  | none => Except.error "TypeError: no such component"
  | some c =>
    let eRow : Int := ((entity * S.s.sizeOf : Nat) : Int)
    let before : Nat := (getCell S.e (eRow + c.arrayIndex)).toNat
    let newValue : Nat := before ||| c.mask
    let S := { S with e := setCell S.e (eRow + c.arrayIndex) (newValue : Int) }
    let componentRow := getCell S.e (eRow + (S.maskSize : Int) + c.arrayIndex)
    let S ←
      if c.propNames.length ≠ 0 ∧ componentRow < 0 then
        match S.tableAt c.arrayIndex with
        | none => Except.error "TypeError: table is null"
        | some (arr, ts) => do
          let (row, arr, ts) ← ts.insertRow arr none
          let S := S.setTable c.arrayIndex (setCell arr (((row * ts.sizeOf : Nat) : Int)) (entity : Int)) ts
          pure { S with e := setCell S.e (eRow + (S.maskSize : Int) + c.arrayIndex) ↑row }
      else
        pure S
    pure (S.runEntry entity before newValue)

/-- JS `removeComponent(entity, name)`.  `before & ~mask` on BigInt is
`bclear` (that is, `Nat.ldiff`).  `ts.removeRow(row / ts.sizeOf)` divides the stored offset word
by the row width; in the engine addressing scheme the word is an exact
multiple of `sizeOf`. -/
def EntitySystem.removeComponent (S : EntitySystem) (entity : Nat) (name : String) :
    Except String EntitySystem := do
  match S.comps.find? (·.name = name) with
  | none => Except.error "TypeError: no such component"
  | some c =>
    let eRow : Int := ((entity * S.s.sizeOf : Nat) : Int)
    let before : Nat := (getCell S.e (eRow + c.arrayIndex)).toNat
    let newValue : Nat := bclear before c.mask
    let S := { S with e := setCell S.e (eRow + c.arrayIndex) (newValue : Int) }
    let S := S.runExit entity before newValue
    match S.tableAt c.arrayIndex with
    | none => pure S
    | some (arr, ts) =>
      if newValue &&& ts.combinedMask = 0 then
        let row := getCell S.e (eRow + (S.maskSize : Int) + c.arrayIndex)
        if row ≥ 0 then
          let S := { S with e := setCell S.e (eRow + (S.maskSize : Int) + c.arrayIndex) (-1) }
          let (arr, ts) := ts.removeRow arr ((row / (ts.sizeOf : Int)).toNat)
          let arr := setCell arr row (-1)
          pure (S.setTable c.arrayIndex arr ts)
        else pure S
      else pure S

/-- The template loop of `addComponents`: process the entries in object key
order, carrying the captured mask array and the per-call `arrayRows` cache
of already resolved table rows. -/
def EntitySystem.addComponentsAux (S : EntitySystem) (entity : Nat) (eRow : Int) :
    List TEntry → List Nat → List (Int × Nat) →
    Except String (EntitySystem × List Nat)
  | [], masks, _ => pure (S, masks)
  | TEntry.tags cs :: rest, masks, arrayRows => do
    let S ← cs.foldlM (fun S c => S.addComponent entity c) S
    S.addComponentsAux entity eRow rest masks arrayRows
  | TEntry.idKey _ :: rest, masks, arrayRows =>
    S.addComponentsAux entity eRow rest masks arrayRows
  | TEntry.field name value :: rest, masks, arrayRows => do
    match S.props.find? (·.name = name) with
    | none => Except.error "Prop is not in any of the registered components"
    | some cfg => do
      let (S, componentRow, arrayRows) ←
        match arrayRows.lookup cfg.array with
        | some r => pure (S, r, arrayRows)
        | none =>
          let v := getCell S.e (eRow + (S.maskSize : Int) + cfg.array)
          if v ≥ 0 then
            -- `value / sizeOf`: exact division in the engine addressing scheme
            pure (S, (v / (cfg.sizeOf : Int)).toNat, (cfg.array, (v / (cfg.sizeOf : Int)).toNat) :: arrayRows)
          else
            match S.tableAt cfg.array with
            | none => Except.error "TypeError: table is null"
            | some (arr, ts) => do
              let (r, arr, ts) ← ts.insertRow arr none
              let S := S.setTable cfg.array (setCell arr (((r * cfg.sizeOf : Nat) : Int)) (entity : Int)) ts
              pure (S, r, (cfg.array, r) :: arrayRows)
      let componentOffset : Int := ((componentRow * cfg.sizeOf : Nat) : Int)
      let S := { S with e := setCell S.e (eRow + (S.maskSize : Int) + cfg.array) componentOffset }
      let S :=
        match S.tableAt cfg.array with
        | none => S
        | some (arr, ts) => S.setTable cfg.array (setCell arr (componentOffset + cfg.offset) value) ts
      let masks :=
        if 0 ≤ cfg.array then
          masks.set cfg.array.toNat ((masks.getD cfg.array.toNat 0) ||| cfg.componentMask)
        else masks
      S.addComponentsAux entity eRow rest masks arrayRows

/-- The final loop of `addComponents`: write each new mask word and fire the
entry evaluation per table. -/
def EntitySystem.applyMasks (S : EntitySystem) (entity : Nat) (eRow : Int)
    (masks : List Nat) : EntitySystem :=
  (List.range masks.length).foldl
    (fun S j =>
      let mask := masks.getD j 0
      let before : Nat := (getCell S.e (eRow + (j : Int))).toNat
      let newValue : Nat := before ||| mask
      let S := { S with e := setCell S.e (eRow + (j : Int)) (newValue : Int) }
      S.runEntry entity before newValue)
    S

/-- JS `addComponents(entity, template)`. -/
def EntitySystem.addComponents (S : EntitySystem) (entity : Nat) (t : List TEntry) :
    Except String EntitySystem := do
  let eRow : Int := ((entity * S.s.sizeOf : Nat) : Int)
  let masks := (List.range S.maskSize).map fun i => (getCell S.e (eRow + (i : Int))).toNat
  let (S, masks) ← S.addComponentsAux entity eRow t masks []
  pure (S.applyMasks entity eRow masks)

/-- JS `newEntity(template, id)`. -/
def EntitySystem.newEntity (S : EntitySystem) (template : Option (List TEntry) := none)
    (id? : Option Nat := none) : Except String (Nat × EntitySystem) := do
  let (entityId, e, s) ←
    match id? with
    | some id =>
      if S.existsEnt id then Except.error "Entity with id already exists"
      else S.s.insertRow S.e (some id)
    | none => S.s.insertRow S.e none
  let S := { S with e := e, s := s }
  let S := { S with e := zeroEntityRow S.e (((entityId * S.s.sizeOf : Nat) : Int)) S.maskSize }
  match template with
  | some t => do
    let S ← S.addComponents entityId t
    pure (entityId, S)
  | none => pure (entityId, S)

/-- JS `removeEntity(entity)`: per table, reset the offset word, fire the
exit evaluation with the old mask against 0, free an allocated data row;
finally free the index-table row. -/
def EntitySystem.removeEntity (S : EntitySystem) (entity : Nat) : EntitySystem :=
  let eRow : Int := ((entity * S.s.sizeOf : Nat) : Int)
  let S := (List.range S.maskSize).foldl
    (fun S i =>
      let mask : Nat := (getCell S.e (eRow + (i : Int))).toNat
      let rowOffset := getCell S.e (eRow + (S.maskSize : Int) + (i : Int))
      let S := { S with e := setCell S.e (eRow + (S.maskSize : Int) + (i : Int)) (-1) }
      let S := S.runExit entity mask 0
      if rowOffset ≥ 0 then
        match S.tableAt (i : Int) with
        | none => S
        | some (arr, ts) =>
          let arr := setCell arr rowOffset (-1)
          let (arr, ts) := ts.removeRow arr ((rowOffset / (ts.sizeOf : Int)).toNat)
          S.setTable (i : Int) arr ts
      else S)
    S
  let (e, s) := S.s.removeRow S.e entity
  { S with e := e, s := s }

/-- JS `getValue(entity, name)`: read the resolved slot. -/
def EntitySystem.getValue (S : EntitySystem) (entity : Nat) (name : String) :
    Except String Int := do
  match S.props.find? (·.name = name) with
  | none => Except.error "Prop is not in any of the registered components"
  | some cfg =>
    let eRow : Int := ((entity * S.s.sizeOf : Nat) : Int)
    let componentOffset := getCell S.e (eRow + (S.maskSize : Int) + cfg.array)
    match S.tableAt cfg.array with
    | none => pure 0
    | some (arr, _) => pure (getCell arr (componentOffset + cfg.offset))

/-- JS `setValue(entity, name, value)`: write the resolved slot. -/
def EntitySystem.setValue (S : EntitySystem) (entity : Nat) (name : String) (value : Int) :
    Except String EntitySystem := do
  match S.props.find? (·.name = name) with
  | none => Except.error "Prop is not in any of the registered components"
  | some cfg =>
    let eRow : Int := ((entity * S.s.sizeOf : Nat) : Int)
    let componentOffset := getCell S.e (eRow + (S.maskSize : Int) + cfg.array)
    match S.tableAt cfg.array with
    | none => pure S
    | some (arr, ts) =>
      pure (S.setTable cfg.array (setCell arr (componentOffset + cfg.offset) value) ts)

/-! ## Serialization -/

/-- One exported entity: the `_id` key, the tag-name array `_` (empty when
the key is absent), and the exported field map in key order. -/
structure ExportEntity where
  id : Nat
  tags : List String
  fields : List (String × Int)
deriving DecidableEq, Repr

/-- The export object graph (the type stamp string is omitted; only the
format version and the entity list carry information). -/
structure ExportJson where
  version : Nat
  entities : List ExportEntity
deriving DecidableEq, Repr

/-- The optional export mask filter test `(masks[a] & componentMask) ===
componentMask`, vacuously true without a filter. -/
def maskFilterOk (masks : Option (List Nat)) (a : Int) (componentMask : Nat) : Bool :=
  match masks with
  | none => true
  | some ms => ((if 0 ≤ a then ms.getD a.toNat 0 else 0) &&& componentMask) = componentMask

/-- The tag collection loop of `toJSON` for one entity row: every zero-field
component whose bit is present (and passes the filter), in registry order. -/
def EntitySystem.exportTags (S : EntitySystem) (masks : Option (List Nat))
    (rowOffset : Int) : List String :=
  S.comps.filterMap fun c =>
    if c.propNames.length = 0 then
      let currMask : Nat := (getCell S.e (rowOffset + c.arrayIndex)).toNat
      if maskFilterOk masks c.arrayIndex c.mask ∧ (currMask &&& c.mask) = c.mask then
        some c.name
      else none
    else none

/-- The field collection loop of `toJSON` for one entity row: every prop of
a present component with an allocated row offset, in registry order. -/
def EntitySystem.exportFields (S : EntitySystem) (masks : Option (List Nat))
    (rowOffset : Int) : List (String × Int) :=
  S.props.filterMap fun cfg =>
    let currMask : Nat := (getCell S.e (rowOffset + cfg.array)).toNat
    if maskFilterOk masks cfg.array cfg.componentMask ∧
        (currMask &&& cfg.componentMask) = cfg.componentMask then
      let columnRow := getCell S.e ((S.maskSize : Int) + rowOffset + cfg.array)
      if columnRow ≥ 0 then
        some (cfg.name,
          match S.tableAt cfg.array with
          | none => 0
          | some (arr, _) => getCell arr (columnRow + cfg.offset))
      else none
    else none

/-- JS `toJSON(masks)`: the ordered list of live rows below the high-water
mark that contribute data (some tag or some field). -/
def EntitySystem.toJSON (S : EntitySystem) (masks : Option (List Nat) := none) :
    Except String ExportJson := do
  if S.s.sizeOf ≠ S.maskSize * 2 then
    Except.error "Illegal State: sizeOf of entity table must be twice the mask size"
  else
    pure
      { version := 1
        entities := (List.range S.s.rowCounter).filterMap fun i =>
          let rowOffset : Int := ((i * S.s.sizeOf : Nat) : Int)
          if S.existsEnt i then
            let tags := S.exportTags masks rowOffset
            let fields := S.exportFields masks rowOffset
            if tags.length ≠ 0 ∨ fields.length ≠ 0 then
              some { id := i, tags := tags, fields := fields }
            else none
          else none }

/-- The template object that `fromJSON` passes to `newEntity` for one
exported entity, in JS object key order: `_id` first, then the tag array
`_` when tags were exported, then the exported fields. -/
def templateOfExport (ent : ExportEntity) : List TEntry :=
  [TEntry.idKey (ent.id : Int)] ++
    (if ent.tags.length ≠ 0 then [TEntry.tags ent.tags] else []) ++
    ent.fields.map fun f => TEntry.field f.1 f.2

/-- Insertion into a list sorted by descending id. -/
def insertDesc (x : ExportEntity) : List ExportEntity → List ExportEntity
  | [] => [x]
  | y :: ys => if x.id ≥ y.id then x :: y :: ys else y :: insertDesc x ys

/-- JS `entities.sort((a, b) => b._id - a._id)`: the exported entities in
descending id order (the ids are pairwise distinct). -/
def sortDesc (l : List ExportEntity) : List ExportEntity :=
  l.foldr insertDesc []

/-- The replay loop of `fromJSON`: create each exported entity as a
templated creation with its original id. -/
def EntitySystem.importEntities (S : EntitySystem) :
    List ExportEntity → Except String EntitySystem
  | [] => pure S
  | ent :: rest => do
    let (_, S) ← S.newEntity (some (templateOfExport ent)) (some ent.id)
    S.importEntities rest

/-- JS `EntitySystem.fromJSON(config, json)`: build a fresh system from the
configuration, replay the entities in descending id order, then set the
index-table `removeCounter` to the number of rows of the whole backing
array (strided by `sizeOf` over `array.length`) whose exists bit is clear. -/
def EntitySystem.fromJSON (config : Config) (json : ExportJson) :
    Except String EntitySystem := do
  let S ← EntitySystem.init config
  let S ← S.importEntities (sortDesc json.entities)
  let rows := S.e.size / S.s.sizeOf
  let removeCounter := ((List.range rows).filter fun i =>
    bit0 (getCell S.e ((i * S.s.sizeOf : Nat) : Int)) = 0).length
  pure { S with s := { S.s with removeCounter := removeCounter } }

/-! ## Concrete scenario states used by the claim theorems -/

/-- Configuration with 53 components (52 tags and one fielded) assigned to a
single layout table — one more than the documented 52-component limit. -/
def cfg53 : Config :=
  { Components := (List.range 52).map (fun i => (toString i, ([] : List String))) ++ [("F", ["f"])]
    Layout := some [⟨(List.range 52).map toString ++ ["F"], 4⟩]
    entityCount := 4 }

/-- Single fielded component A(x) in one table of four rows. -/
def cfgA : Config :=
  { Components := [("A", ["x"])], Layout := some [⟨["A"], 4⟩], entityCount := 4 }

/-- Fielded component A(x) co-located with tag component T. -/
def cfgAT : Config :=
  { Components := [("A", ["x"]), ("T", [])], Layout := some [⟨["A", "T"], 4⟩], entityCount := 4 }

/-- Fielded component A(x, y) alone in one table (row width 3). -/
def cfgAxy : Config :=
  { Components := [("A", ["x", "y"])], Layout := some [⟨["A"], 4⟩], entityCount := 4 }

/-- State for C2: an entity carrying fielded A and tag T in the same table,
after `removeComponent(e, "A")`. -/
def c2state : Except String EntitySystem := do
  let S ← EntitySystem.init cfgAT
  let (id, S) ← S.newEntity (some [TEntry.field "x" 5]) none
  let S ← S.addComponent id "T"
  S.removeComponent id "A"

/-- State for C3: entities 0, 1, 2 created, entity 1 removed, the system
exported and re-imported with the same configuration. -/
def c3state : Except String EntitySystem := do
  let S ← EntitySystem.init cfgA
  let (_, S) ← S.newEntity (some [TEntry.field "x" 10]) none
  let (_, S) ← S.newEntity (some [TEntry.field "x" 11]) none
  let (_, S) ← S.newEntity (some [TEntry.field "x" 12]) none
  let S := S.removeEntity 1
  let out ← S.toJSON none
  EntitySystem.fromJSON cfgA out

/-- State for C6: entity 0 holds table row 0 with x = 10, y = 20; entity 1
then receives component A through `addComponent`, allocating row 1. -/
def c6state : Except String EntitySystem := do
  let S ← EntitySystem.init cfgAxy
  let (_, S) ← S.newEntity (some [TEntry.field "x" 10, TEntry.field "y" 20]) none
  let (id2, S) ← S.newEntity none none
  S.addComponent id2 "A"

/-- Export for C9: a single entity with id 8, far beyond the four-row
initial capacity of `cfgA` (row 8 needs slots 16..17, twice 8 is 16). -/
def c9json : ExportJson := ⟨1, [⟨8, [], [("x", 42)]⟩]⟩

end Entity

/-- C4: the claim says a layout table assigned more than 52 components makes
construction fail.  The source guard is `components.size > 52`, but
`components` is a JS Array whose `size` property is `undefined`, and
`undefined > 52` is `false`, so the guard never fires: a 53-component table
constructs successfully and a complete system is returned. -/
theorem c4_code_bug_eval :
    ((Entity.cfg53.Layout.getD []).headD ⟨[], 0⟩).components.length = 53 ∧
      (Entity.EntitySystem.init Entity.cfg53).isOk = true := by decide

/-- C5: the claim says an explicit-id creation leaves `rowCounter` strictly
greater than the used row index, including when the id equals the current
`rowCounter`.  The source advances only for `at > rowCounter`: creating
entity 0 on a fresh system with explicit id 0 leaves `rowCounter = 0`
although entity 0 is live, so the live row sits at the high-water mark and
is invisible to every `i < rowCounter` scan. -/
theorem c5_code_bug_eval :
    ((Entity.EntitySystem.init Entity.cfgA).bind fun S =>
        S.newEntity none (some 0)).map
        (fun p => (p.1, p.2.existsEnt 0, p.2.s.rowCounter)) =
      .ok (0, true, 0) := by decide

/-- C6: the claim says `addComponent` records an offset word under which
`getValue`/`setValue` address slot `row * sizeOf + offset(f)` like the
template path.  The source stores the raw row index instead: after entity 1
receives row 1 of a width-3 table, its offset word is 1 (not 3), the back
reference is correctly written at slot 3, and `getValue(1, "x")` reads slot
1 + 1 = 2 — entity 0's y value 20 — while row 1's actual x slot 4 is
untouched. -/
theorem c6_code_bug_eval :
    (Entity.c6state.map fun S =>
        (Entity.getCell S.e 3,
          (S.tableAt 0).elim 0 (fun p => Entity.getCell p.1 3),
          S.getValue 1 "x",
          (S.tableAt 0).elim 0 (fun p => Entity.getCell p.1 4))) =
      .ok (1, 1, .ok 20, 0) := by decide

/-- C9: the claim says a row requested via an explicit id far beyond current
capacity becomes fully addressable after growth.  The source doubles the
backing array exactly once: importing a single entity with id 8 into a
system whose index table holds 8 slots (4 rows of width 2) grows it to 16
slots, but row 8 needs slots 16..17, so every write for the row is
discarded and the entity does not exist after the import, although the
high-water mark claims 9 rows. -/
theorem c9_code_bug_eval :
    (Entity.EntitySystem.fromJSON Entity.cfgA Entity.c9json).map
        (fun S => (S.existsEnt 8, S.e.size, S.s.rowCounter)) =
      .ok (false, 16, 9) := by decide

/-- C3: the claim says `fromJSON` leaves `removeCounter` equal to the number
of cleared rows below the high-water mark, so that creation succeeds.  The
source counts the cleared rows of the whole backing array: importing
entities 0 and 2 (gap at 1) into a four-row table gives `rowCounter = 3`
and one gap below it, but `removeCounter = 2` (rows 1 and 3), and since
`skipOnRemove` is still `Infinity`, the next `newEntity()` fails with the
fatal no-free-slot consistency error instead of succeeding. -/
theorem c3_code_bug_eval :
    (Entity.c3state.map fun S =>
        (S.s.rowCounter,
          ((List.range S.s.rowCounter).filter fun i => !(S.existsEnt i)).length,
          S.s.removeCounter,
          S.s.skipOnRemove,
          (S.newEntity none none).isOk)) =
      .ok (3, 1, 2, none, false) := by decide

/-- C7 counterexample: the claim says deregistration removes only the
matching (mask, callback) pair, preserving pairs that share the callback
but carry a different mask.  Registering callback 7 under mask 1 and again
under mask 2 and then invoking the first deregistration handle empties the
list: the (2, 7) pair is removed as well. -/
theorem c7_counterexample :
    (Entity.EntitySystem.init Entity.cfgA).map
        (fun S => (((S.onEnter 1 7).onEnter 2 7).offEnter 7).entryHandlers) =
      .ok [] := by decide

/-- C7 as amended: invoking the deregistration handle removes every pair
whose callback is the deregistered one — the handler list becomes exactly
the order-preserving filter keeping the pairs with a different callback. -/
theorem c7_removeHandler (hs : List (Nat × Nat)) (fn : Nat) :
    Entity.removeHandler hs fn = hs.filter (fun p => p.2 != fn) := by
  induction hs with
  | nil => rfl
  | cons h t ih =>
    obtain ⟨m, f⟩ := h
    by_cases hf : f = fn
    · simp [Entity.removeHandler, hf, ih]
    · simp [Entity.removeHandler, hf, ih]

namespace Entity

/-! ## Basic cell lemmas -/

theorem setCell_size (a : Array Int) (i v : Int) : (setCell a i v).size = a.size := by
  unfold setCell; split <;> simp

theorem getCell_setCell_self (a : Array Int) (i v : Int)
    (h0 : 0 ≤ i) (h1 : i.toNat < a.size) : getCell (setCell a i v) i = v := by
  unfold setCell
  rw [dif_pos ⟨h0, h1⟩]
  unfold getCell
  rw [dif_pos ⟨h0, by simpa using h1⟩]
  simp [Array.get_set]

theorem getCell_setCell_ne (a : Array Int) (i j v : Int) (h : i ≠ j) :
    getCell (setCell a i v) j = getCell a j := by
  unfold setCell
  split
  · rename_i hi
    unfold getCell
    by_cases hj : 0 ≤ j ∧ j.toNat < a.size
    · rw [dif_pos (by simpa using hj), dif_pos hj]
      have hne : i.toNat ≠ j.toNat := fun he => h (by omega)
      simp only [Array.get_eq_getElem, Array.get_set _ _ _ (by simpa using hj.2), if_neg hne]
    · rw [dif_neg (by simpa using hj), dif_neg hj]
  · rfl

theorem getCell_oob (a : Array Int) (i : Int) (h : ¬ (0 ≤ i ∧ i.toNat < a.size)) :
    getCell a i = 0 := by
  unfold getCell; rw [dif_neg h]

theorem setCell_oob (a : Array Int) (i v : Int) (h : ¬ (0 ≤ i ∧ i.toNat < a.size)) :
    setCell a i v = a := by
  unfold setCell; rw [dif_neg h]

theorem getCell_mkArray (n : Nat) (i : Int) : getCell (Array.mkArray n 0) i = 0 := by
  unfold getCell
  split
  · simp
  · rfl

theorem setCell_same (a : Array Int) (i : Int) : setCell a i (getCell a i) = a := by
  unfold setCell
  split
  · rename_i h
    unfold getCell
    rw [dif_pos h]
    apply Array.ext
    · simp
    · intro j hj hj2
      rw [Array.get_set _ _ _ (by simpa using hj)]
      split <;> simp_all
  · rfl

/-- Word accessor: the mask word of entity `i` for table `a`, as read by the
engine (`BigInt(entityArray[entityRow + a])`). -/
def EntitySystem.wordAt (S : EntitySystem) (i : Nat) (a : Int) : Nat :=
  (getCell S.e (((i * S.s.sizeOf : Nat) : Int) + a)).toNat

/-- Offset-word accessor: the row-offset word of entity `i` for table `a`. -/
def EntitySystem.offAt (S : EntitySystem) (i : Nat) (a : Int) : Int :=
  getCell S.e (((i * S.s.sizeOf : Nat) : Int) + (S.maskSize : Int) + a)

/-- `a &&& b = b` makes `b` a sub-mask of `a`, so OR-ing it back is the identity. -/
theorem lor_eq_self {a b : Nat} (h : a &&& b = b) : a ||| b = a := by
  apply Nat.eq_of_testBit_eq
  intro i
  have hb := congrArg (fun x => Nat.testBit x i) h
  simp only [Nat.testBit_land] at hb
  rcases htb : b.testBit i with _ | _
  · simp [Nat.testBit_lor, htb]
  · rw [htb] at hb
    simp only [Bool.and_true] at hb
    simp [Nat.testBit_lor, htb, hb]

/-- No handler matches a mask update that does not change the word. -/
theorem matchEntry_self (hs : List (Nat × Nat)) (e b : Nat) :
    matchEntry hs e b b = [] := by
  apply List.filterMap_eq_nil_iff.mpr
  intro p _
  simp only [ite_eq_right_iff]
  intro h
  exact absurd h.1 h.2

end Entity

/-- C10: addComponent is idempotent.  For a live entity that already has
component C (its bit is set in the mask word; when C is fielded, the offset
word is allocated, as the engine always does on adding a fielded component),
adding C again returns the state unchanged: same mask word, same offset
word, no row allocation, no entry-handler invocation. -/
theorem c10_addComponent_idempotent (S : Entity.EntitySystem) (e : Nat) (nm : String)
    (c : Entity.CompCfg)
    (hfind : S.comps.find? (·.name = nm) = some c)
    (hlive : S.existsEnt e = true)
    (hpos : 0 ≤ Entity.getCell S.e (((e * S.s.sizeOf : Nat) : Int) + c.arrayIndex))
    (hbit : (Entity.getCell S.e (((e * S.s.sizeOf : Nat) : Int) + c.arrayIndex)).toNat
        &&& c.mask = c.mask)
    (hoff : c.propNames ≠ [] →
      0 ≤ Entity.getCell S.e
        (((e * S.s.sizeOf : Nat) : Int) + (S.maskSize : Int) + c.arrayIndex)) :
    S.addComponent e nm = .ok S := by
  have hor := Entity.lor_eq_self hbit
  simp only [Entity.EntitySystem.addComponent, hfind, hor,
    Int.toNat_of_nonneg hpos, Entity.setCell_same]
  have hlen : ¬ (c.propNames.length ≠ 0 ∧
      Entity.getCell S.e
        (((e * S.s.sizeOf : Nat) : Int) + (S.maskSize : Int) + c.arrayIndex) < 0) := by
    rcases hc : c.propNames with _ | ⟨n, ns⟩
    · simp
    · rintro ⟨-, hneg⟩
      have := hoff (by simp [hc])
      omega
  rw [if_neg hlen]
  show Except.ok (S.runEntry e _ _) = _
  rw [Entity.EntitySystem.runEntry, Entity.matchEntry_self]
  simp

namespace Entity

/-- Fallback state for scenario extraction (never reached on the test data). -/
def dummySystem : EntitySystem :=
  ⟨[], [], 0, #[], TState.init 0 0, [], [], [], [], []⟩

/-- State for the C10 witness: entity 0 of `cfgAT` created with `{x: 5}`,
carrying component A (mask word 3, offset word 0). -/
def c10state : EntitySystem :=
  match (do
    let S ← EntitySystem.init cfgAT
    let p ← S.newEntity (some [TEntry.field "x" 5]) none
    pure p.2 : Except String EntitySystem) with
  | .ok S => S
  | .error _ => dummySystem

end Entity

/-- Witness for C10 at a concrete input: re-adding component A to entity 0,
which already carries it, returns the state unchanged. -/
theorem c10_addComponent_idempotent_witness :
    Entity.c10state.addComponent 0 "A" = .ok Entity.c10state :=
  c10_addComponent_idempotent Entity.c10state 0 "A" ⟨"A", ["x"], 0, 2⟩
    (by decide) (by decide) (by decide) (by decide) (by decide)

namespace Entity

/-! ## Transition dispatcher: counting fired invocations -/

/-- Number of traced invocations of callback `fn`. -/
def countFn (evs : List Evt) (fn : Nat) : Nat :=
  (evs.filter (fun ev => ev.fn == fn)).length

/-- Adding the components of a list one by one (`addComponent` in sequence). -/
def addSeq (S : EntitySystem) (e : Nat) (cs : List String) : Except String EntitySystem :=
  cs.foldlM (fun S nm => S.addComponent e nm) S

theorem countFn_append (l1 l2 : List Evt) (fn : Nat) :
    countFn (l1 ++ l2) fn = countFn l1 fn + countFn l2 fn := by
  simp [countFn]

theorem matchEntry_cons (m f : Nat) (t : List (Nat × Nat)) (e b n : Nat) :
    matchEntry ((m, f) :: t) e b n =
      (if (n &&& m) = m ∧ (b &&& m) ≠ m then [⟨f, e, b, n⟩] else []) ++ matchEntry t e b n := by
  by_cases h : (n &&& m) = m ∧ (b &&& m) ≠ m
  · simp [matchEntry, List.filterMap_cons, h]
  · simp [matchEntry, List.filterMap_cons, h]

theorem countFn_matchEntry_zero (hs : List (Nat × Nat)) (fn : Nat)
    (h : hs.filter (fun p => p.2 == fn) = []) (e b n : Nat) :
    countFn (matchEntry hs e b n) fn = 0 := by
  induction hs with
  | nil => rfl
  | cons p t ih =>
    obtain ⟨m', f'⟩ := p
    simp only [List.filter_cons] at h
    by_cases hf : f' = fn
    · simp [hf] at h
    · rw [matchEntry_cons, countFn_append]
      have hz := ih (by simpa [hf] using h)
      rw [hz]
      by_cases hc : (n &&& m') = m' ∧ (b &&& m') ≠ m'
      · simp [hc, countFn, hf]
      · simp [hc, countFn]

/-- A callback registered exactly once, under mask `m`, is invoked by one
mask update exactly when the update satisfies `m` anew. -/
theorem countFn_matchEntry (hs : List (Nat × Nat)) (fn m : Nat)
    (hreg : hs.filter (fun p => p.2 == fn) = [(m, fn)]) (e b n : Nat) :
    countFn (matchEntry hs e b n) fn =
      if (n &&& m) = m ∧ ¬ (b &&& m) = m then 1 else 0 := by
  induction hs with
  | nil => simp at hreg
  | cons p t ih =>
    obtain ⟨m', f'⟩ := p
    simp only [List.filter_cons] at hreg
    by_cases hf : f' = fn
    · simp only [hf, beq_self_eq_true, if_true, List.cons.injEq, Prod.mk.injEq] at hreg
      obtain ⟨⟨hm, -⟩, ht⟩ := hreg
      subst hm hf
      rw [matchEntry_cons, countFn_append, countFn_matchEntry_zero t f' ht]
      by_cases hc : (n &&& m') = m' ∧ (b &&& m') ≠ m'
      · simp [hc, countFn]
      · simp [hc, countFn]
    · have hreg2 : t.filter (fun p => p.2 == fn) = [(m, fn)] := by simpa [hf] using hreg
      rw [matchEntry_cons, countFn_append, ih hreg2]
      by_cases hc : (n &&& m') = m' ∧ (b &&& m') ≠ m'
      · simp [hc, countFn, hf]
      · simp [hc, countFn]

theorem ebind_ok {α β : Type} (a : α) (f : α → Except String β) :
    Bind.bind (Except.ok a) f = f a := rfl

theorem ebind_pure {α β : Type} (a : α) (f : α → Except String β) :
    Bind.bind (pure a : Except String α) f = f a := rfl

theorem ebind_err {α β : Type} (s : String) (f : α → Except String β) :
    Bind.bind (Except.error s : Except String α) f = .error s := rfl

theorem epure {α : Type} (a : α) : (pure a : Except String α) = .ok a := rfl

theorem tableAt_update_e (S : EntitySystem) (x : Array Int) (a : Int) :
    EntitySystem.tableAt { S with e := x } a = S.tableAt a := rfl

/-- What one successful `addComponent` does to the state, seen through the
observables of the transition dispatcher: the handler list is untouched, the
component's table word gains the component bit, and the entry trace grows by
exactly the matching invocations of that one update. -/
theorem addComponent_step (S S' : EntitySystem) (e : Nat) (nm : String) (c : CompCfg)
    (hfind : S.comps.find? (·.name = nm) = some c)
    (ha0 : 0 ≤ c.arrayIndex) (ha1 : c.arrayIndex < (S.maskSize : Int))
    (hsize : S.s.sizeOf = 2 * S.maskSize)
    (hbounds : (e + 1) * S.s.sizeOf ≤ S.e.size)
    (hok : S.addComponent e nm = .ok S') :
    S'.entryHandlers = S.entryHandlers ∧
    S'.comps = S.comps ∧
    S'.maskSize = S.maskSize ∧
    S'.s.sizeOf = S.s.sizeOf ∧
    S'.e.size = S.e.size ∧
    S'.wordAt e c.arrayIndex = S.wordAt e c.arrayIndex ||| c.mask ∧
    S'.entryFired = S.entryFired ++
      matchEntry S.entryHandlers e (S.wordAt e c.arrayIndex)
        (S.wordAt e c.arrayIndex ||| c.mask) := by
  have hM : 0 < S.maskSize := by
    by_contra h
    have : S.maskSize = 0 := by omega
    rw [this] at ha1
    omega
  have hidx0 : (0 : Int) ≤ ((e * S.s.sizeOf : Nat) : Int) + c.arrayIndex := by positivity
  have hidx1 : (((e * S.s.sizeOf : Nat) : Int) + c.arrayIndex).toNat < S.e.size := by
    have h2 : e * S.s.sizeOf + S.maskSize ≤ (e + 1) * S.s.sizeOf := by
      have : S.maskSize ≤ S.s.sizeOf := by omega
      nlinarith
    omega
  have hne : ((e * S.s.sizeOf : Nat) : Int) + (S.maskSize : Int) + c.arrayIndex ≠
      ((e * S.s.sizeOf : Nat) : Int) + c.arrayIndex := by omega
  simp only [EntitySystem.addComponent, hfind] at hok
  rw [show ((getCell S.e (((e * S.s.sizeOf : Nat) : Int) + c.arrayIndex)).toNat |||
      c.mask) = S.wordAt e c.arrayIndex ||| c.mask from rfl] at hok
  split at hok
  · -- allocation branch: a fresh row is inserted into the component table
    rename_i hcond
    rw [tableAt_update_e] at hok
    rcases htab : S.tableAt c.arrayIndex with _ | p
    · rw [htab] at hok
      simp at hok
    · obtain ⟨arr, ts⟩ := p
      rw [htab] at hok
      simp only [ebind_ok, ebind_err, ebind_pure, epure] at hok
      rcases hins : ts.insertRow arr none with err | trip
      · rw [hins] at hok
        simp only [ebind_ok, ebind_err, ebind_pure, epure] at hok
        simp at hok
      · obtain ⟨row, arr2, ts2⟩ := trip
        rw [hins] at hok
        simp only [ebind_ok, ebind_err, ebind_pure, epure] at hok
        rw [Except.ok.injEq] at hok
        subst hok
        refine ⟨rfl, rfl, rfl, rfl, ?_, ?_, rfl⟩
        · simp [EntitySystem.runEntry, EntitySystem.setTable, setCell_size]
        · show (getCell
              (setCell (setCell S.e (((e * S.s.sizeOf : Nat) : Int) + c.arrayIndex)
                  ((S.wordAt e c.arrayIndex ||| c.mask : Nat) : Int))
                (((e * S.s.sizeOf : Nat) : Int) + (S.maskSize : Int) + c.arrayIndex)
                ((row : Nat) : Int))
              (((e * S.s.sizeOf : Nat) : Int) + c.arrayIndex)).toNat = _
          rw [getCell_setCell_ne _ _ _ _ hne,
            getCell_setCell_self _ _ _ hidx0 hidx1]
          simp
  · -- no allocation: the component is a tag or the row already exists
    rename_i hcond
    simp only [ebind_ok, ebind_pure, epure] at hok
    rw [Except.ok.injEq] at hok
    subst hok
    refine ⟨rfl, rfl, rfl, rfl, ?_, ?_, rfl⟩
    · simp [EntitySystem.runEntry, setCell_size]
    · show (getCell (setCell S.e (((e * S.s.sizeOf : Nat) : Int) + c.arrayIndex)
            ((S.wordAt e c.arrayIndex ||| c.mask : Nat) : Int))
          (((e * S.s.sizeOf : Nat) : Int) + c.arrayIndex)).toNat = _
      rw [getCell_setCell_self _ _ _ hidx0 hidx1]
      simp

/-- Mask satisfaction is monotone under gaining bits. -/
theorem sat_mono {w x m : Nat} (h : w &&& m = m) : (w ||| x) &&& m = m := by
  apply Nat.eq_of_testBit_eq
  intro i
  have hw := congrArg (fun t => Nat.testBit t i) h
  simp only [Nat.testBit_land] at hw
  simp only [Nat.testBit_land, Nat.testBit_lor]
  rcases hm : Nat.testBit m i with _ | _
  · simp
  · rw [hm] at hw
    simp only [Bool.and_true] at hw
    simp [hw]

/-- Firing count of a registered entry handler over an incremental build
within one table: the callback is invoked exactly once if the build takes
that table's word from unsatisfying to satisfying, and never otherwise. -/
theorem addSeq_count (cs : List String) (S S' : EntitySystem) (e : Nat) (a : Int)
    (m fn : Nat)
    (hcs : ∀ nm ∈ cs, ∃ c : CompCfg, S.comps.find? (·.name = nm) = some c ∧
      c.arrayIndex = a ∧ 0 ≤ c.arrayIndex ∧ c.arrayIndex < (S.maskSize : Int))
    (hreg : S.entryHandlers.filter (fun p => p.2 == fn) = [(m, fn)])
    (hsize : S.s.sizeOf = 2 * S.maskSize)
    (hbounds : (e + 1) * S.s.sizeOf ≤ S.e.size)
    (hok : addSeq S e cs = .ok S') :
    (∃ X, S'.wordAt e a = S.wordAt e a ||| X) ∧
    S'.entryHandlers = S.entryHandlers ∧
    countFn S'.entryFired fn = countFn S.entryFired fn +
      (if (S'.wordAt e a &&& m) = m ∧ ¬ (S.wordAt e a &&& m) = m then 1 else 0) := by
  induction cs generalizing S with
  | nil =>
    have hS : S = S' := by simpa [addSeq, epure] using hok
    subst hS
    exact ⟨⟨0, by simp⟩, rfl, by simp⟩
  | cons nm rest ih =>
    obtain ⟨c, hfind, hca, hc0, hc1⟩ := hcs nm (by simp)
    rw [show addSeq S e (nm :: rest) =
      Bind.bind (S.addComponent e nm) (fun S1 => addSeq S1 e rest) from rfl] at hok
    rcases hadd : S.addComponent e nm with err | S1
    · rw [hadd, ebind_err] at hok
      simp at hok
    · rw [hadd, ebind_ok] at hok
      obtain ⟨hH, hC, hM, hS, hE, hW, hF⟩ :=
        addComponent_step S S1 e nm c hfind hc0 hc1 hsize hbounds hadd
      have hcs1 : ∀ nm2 ∈ rest, ∃ c2 : CompCfg,
          S1.comps.find? (·.name = nm2) = some c2 ∧ c2.arrayIndex = a ∧
          0 ≤ c2.arrayIndex ∧ c2.arrayIndex < (S1.maskSize : Int) := by
        intro nm2 h2
        obtain ⟨c2, h2f, h2a, h2z, h2m⟩ := hcs nm2 (by simp [h2])
        exact ⟨c2, by rw [hC]; exact h2f, h2a, h2z, by rw [hM]; exact h2m⟩
      have hreg1 : S1.entryHandlers.filter (fun p => p.2 == fn) = [(m, fn)] := by
        rw [hH]; exact hreg
      have hsize1 : S1.s.sizeOf = 2 * S1.maskSize := by rw [hS, hM]; exact hsize
      have hbounds1 : (e + 1) * S1.s.sizeOf ≤ S1.e.size := by
        rw [hS, hE]; exact hbounds
      obtain ⟨⟨X, hX⟩, hH2, hcount⟩ := ih S1 hcs1 hreg1 hsize1 hbounds1 hok
      rw [hca] at hW
      refine ⟨⟨c.mask ||| X, by rw [hX, hW, Nat.lor_assoc]⟩, by rw [hH2, hH], ?_⟩
      rw [hcount, hF, countFn_append, countFn_matchEntry S.entryHandlers fn m hreg,
        hca, hW]
      by_cases s0 : (S.wordAt e a &&& m) = m
      · have s1 : ((S.wordAt e a ||| c.mask) &&& m) = m := sat_mono s0
        have s2 : (S'.wordAt e a &&& m) = m := by rw [hX, hW]; exact sat_mono s1
        simp [s0, s1, s2]
      · by_cases s1 : ((S.wordAt e a ||| c.mask) &&& m) = m
        · have s2 : (S'.wordAt e a &&& m) = m := by rw [hX, hW]; exact sat_mono s1
          simp [s0, s1, s2]
        · simp [s0, s1]

/-! ## Constructor characterization of the combined table mask -/

/-- Reference composition of a table's combined mask, following the
constructor's sequential bit assignment over the layout entry's component
list: each component is assigned the running bit (shifted once per
component) and contributes it exactly when it has at least one prop
(`pn nm` is its configured prop list).  Zero-field tag components
contribute nothing. -/
def tableCombined (pn : String → List String) : List String → Nat → Nat
  | [], _ => 0
  | nm :: rest, mask =>
    (if (pn nm).length ≠ 0 then mask else 0) ||| tableCombined pn rest (mask <<< 1)

theorem procProps_combined (names : List String) (props : List PropCfg) (i : Int)
    (cmask : Nat) (offset : Int) (combined : Nat) :
    (procProps props names i cmask offset combined).2.2 =
      if names.length = 0 then combined else combined ||| cmask := by
  induction names generalizing props offset combined with
  | nil => rfl
  | cons n ns ih =>
    show (procProps _ ns i cmask (offset + 1) (combined ||| cmask)).2.2 = _
    rw [ih]
    rcases ns with _ | ⟨n2, ns2⟩
    · simp
    · simp [Nat.lor_assoc]

theorem setComp_shape (comps : List CompCfg) (nm : String) (f : CompCfg → CompCfg)
    (hf : ∀ c, (f c).name = c.name ∧ (f c).propNames = c.propNames) :
    (setComp comps nm f).map (fun c => (c.name, c.propNames)) =
      comps.map (fun c => (c.name, c.propNames)) := by
  unfold setComp
  rw [List.map_map]
  apply List.map_congr_left
  intro c _
  by_cases h : c.name = nm
  · simp [h, (hf c).1, (hf c).2]
  · simp [h]

theorem find_pn_of_shape (l1 l2 : List CompCfg)
    (h : l1.map (fun c => (c.name, c.propNames)) = l2.map (fun c => (c.name, c.propNames)))
    (nm : String) :
    (l1.find? (·.name = nm)).map (·.propNames) =
      (l2.find? (·.name = nm)).map (·.propNames) := by
  induction l1 generalizing l2 with
  | nil =>
    cases l2 with
    | nil => rfl
    | cons c2 t2 => simp at h
  | cons c t ih =>
    cases l2 with
    | nil => simp at h
    | cons c2 t2 =>
      simp only [List.map_cons, List.cons.injEq, Prod.mk.injEq] at h
      obtain ⟨⟨hn, hp⟩, ht⟩ := h
      by_cases hnm : c.name = nm
      · rw [List.find?_cons_of_pos _ (by simpa using hnm),
          List.find?_cons_of_pos _ (by simp [← hn, hnm])]
        simp [hp]
      · rw [List.find?_cons_of_neg _ (by simpa using hnm),
          List.find?_cons_of_neg _ (by simp [← hn, hnm])]
        exact ih t2 ht

theorem procTableComps_shape (names : List String) (comps : List CompCfg)
    (props : List PropCfg) (i : Int) (mask : Nat) (offset : Int) (combined : Nat)
    (comps' : List CompCfg) (props' : List PropCfg) (o' : Int) (c' : Nat)
    (hok : procTableComps comps props names i mask offset combined =
      .ok (comps', props', o', c')) :
    comps'.map (fun c => (c.name, c.propNames)) =
      comps.map (fun c => (c.name, c.propNames)) := by
  induction names generalizing comps props mask offset combined with
  | nil =>
    simp only [procTableComps, epure, Except.ok.injEq, Prod.mk.injEq] at hok
    rw [← hok.1]
  | cons nm rest ih =>
    unfold procTableComps at hok
    rcases hf : comps.find? (·.name = nm) with _ | entry
    · simp only [hf] at hok
      simp at hok
    · simp only [hf] at hok
      rcases hpp : procProps props entry.propNames i mask offset combined with
        ⟨props1, offset1, combined1⟩
      simp only [hpp] at hok
      have := ih (setComp comps nm fun c => { c with arrayIndex := i, mask := mask })
        props1 (mask <<< 1) offset1 combined1 hok
      rw [this, setComp_shape]
      intro c
      exact ⟨rfl, rfl⟩

theorem procTableComps_combined (pn : String → List String) (names : List String)
    (comps : List CompCfg) (props : List PropCfg) (i : Int) (mask : Nat)
    (offset : Int) (combined : Nat)
    (comps' : List CompCfg) (props' : List PropCfg) (o' : Int) (comb' : Nat)
    (hok : procTableComps comps props names i mask offset combined =
      .ok (comps', props', o', comb'))
    (hpn : ∀ nm ∈ names, (comps.find? (·.name = nm)).map (·.propNames) = some (pn nm)) :
    comb' = combined ||| tableCombined pn names mask := by
  induction names generalizing comps props mask offset combined with
  | nil =>
    simp only [procTableComps, epure, Except.ok.injEq, Prod.mk.injEq] at hok
    simp [tableCombined, ← hok.2.2.2]
  | cons nm rest ih =>
    have hpn0 := hpn nm (by simp)
    unfold procTableComps at hok
    rcases hf : comps.find? (·.name = nm) with _ | entry
    · rw [hf] at hpn0
      simp at hpn0
    · have hent : entry.propNames = pn nm := by
        rw [hf] at hpn0
        simpa using hpn0
      simp only [hf] at hok
      rcases hpp : procProps props entry.propNames i mask offset combined with
        ⟨props1, offset1, combined1⟩
      simp only [hpp] at hok
      have hcomb1 : combined1 =
          if (pn nm).length = 0 then combined else combined ||| mask := by
        have h := procProps_combined entry.propNames props i mask offset combined
        rw [hpp] at h
        rw [hent] at h
        exact h
      have hpn1 : ∀ nm2 ∈ rest,
          (((setComp comps nm fun c => { c with arrayIndex := i, mask := mask }).find?
            (·.name = nm2)).map (·.propNames)) = some (pn nm2) := by
        intro nm2 h2
        rw [find_pn_of_shape
          (setComp comps nm fun c => { c with arrayIndex := i, mask := mask }) comps
          (setComp_shape comps nm (fun c => { c with arrayIndex := i, mask := mask })
            (fun c => ⟨rfl, rfl⟩))]
        exact hpn nm2 (by simp [h2])
      have hrec := ih (setComp comps nm fun c => { c with arrayIndex := i, mask := mask })
        props1 (mask <<< 1) offset1 combined1 hok hpn1
      rw [hrec, hcomb1]
      by_cases hz : (pn nm).length = 0
      · simp [tableCombined, hz]
      · simp [tableCombined, hz, Nat.lor_assoc]

theorem buildTables_combined (pn : String → List String) (layout : List LayoutEntry)
    (comps : List CompCfg) (props : List PropCfg) (i : Nat)
    (res : List CompCfg × List PropCfg × List (Option (Array Int × TState)))
    (hok : buildTables comps props layout i = .ok res)
    (hpn : ∀ entry ∈ layout, ∀ nm ∈ entry.components,
      (comps.find? (·.name = nm)).map (·.propNames) = some (pn nm)) :
    ∀ k entry, layout.get? k = some entry →
      ∀ arr ts, res.2.2.get? k = some (some (arr, ts)) →
        ts.combinedMask =
          tableCombined pn entry.components (if i + k = 0 then 2 else 1) := by
  induction layout generalizing comps props i res with
  | nil =>
    intro k entry hk
    simp at hk
  | cons entry0 rest ih =>
    unfold buildTables at hok
    simp only [componentsSizeGuard, Bool.false_eq_true, if_false, ite_false] at hok
    rcases hptc : procTableComps comps props entry0.components (i : Int)
        (if i = 0 then 2 else 1) 1 0 with _ | quad
    · rw [hptc] at hok
      simp only [ebind_ok, ebind_err, ebind_pure] at hok
      simp at hok
    · obtain ⟨comps1, props1, offset, combined⟩ := quad
      rw [hptc] at hok
      simp only [ebind_ok, ebind_err, ebind_pure] at hok
      rcases hbt : buildTables comps1 props1 rest (i + 1) with _ | trip
      · rw [hbt] at hok
        simp only [ebind_ok, ebind_err, ebind_pure] at hok
        simp at hok
      · obtain ⟨comps2, props2, slots1⟩ := trip
        rw [hbt] at hok
        simp only [ebind_ok, ebind_pure, epure, Except.ok.injEq] at hok
        subst hok
        intro k entry hk arr ts hs
        cases k with
        | zero =>
          simp only [List.get?_cons_zero, Option.some.injEq] at hk hs
          subst hk
          by_cases hoff : offset > 1
          · rw [if_pos hoff] at hs
            have hts : ts = TState.init offset.toNat combined := by
              simp only [Option.some.injEq, Prod.mk.injEq] at hs
              exact hs.2.symm
            rw [hts]
            show combined = _
            have := procTableComps_combined pn entry0.components comps props (i : Int)
              (if i = 0 then 2 else 1) 1 0 comps1 props1 offset combined hptc
              (hpn entry0 (by simp))
            rw [this]
            simp
          · rw [if_neg hoff] at hs
            simp at hs
        | succ k2 =>
          simp only [List.get?_cons_succ] at hk hs
          have hpn1 : ∀ entry2 ∈ rest, ∀ nm ∈ entry2.components,
              (comps1.find? (·.name = nm)).map (·.propNames) = some (pn nm) := by
            intro entry2 h2 nm hnm
            rw [find_pn_of_shape comps1 comps
              (procTableComps_shape entry0.components comps props (i : Int) _ 1 0
                comps1 props1 offset combined hptc)]
            exact hpn entry2 (by simp [h2]) nm hnm
          have hrec := ih comps1 props1 (i + 1) (comps2, props2, slots1) hbt hpn1
            k2 entry hk arr ts hs
          rw [hrec]
          have harith : i + 1 + k2 = i + (k2 + 1) := by omega
          rw [harith]

theorem loadComps_shape (cs : List (String × List String)) (comps : List CompCfg)
    (props : List PropCfg) (comps' : List CompCfg) (props' : List PropCfg)
    (hok : loadComps cs comps props = .ok (comps', props')) :
    comps'.map (fun c => (c.name, c.propNames)) =
      comps.map (fun c => (c.name, c.propNames)) ++ cs := by
  induction cs generalizing comps props with
  | nil =>
    simp only [loadComps, epure, Except.ok.injEq, Prod.mk.injEq] at hok
    rw [← hok.1]
    simp
  | cons p rest ih =>
    obtain ⟨name, propNames⟩ := p
    unfold loadComps at hok
    rcases hlp : loadProps name propNames props with _ | props1
    · rw [hlp] at hok
      simp only [ebind_ok, ebind_err, ebind_pure] at hok
      simp at hok
    · rw [hlp] at hok
      simp only [ebind_ok, ebind_err, ebind_pure] at hok
      have := ih (comps ++ [⟨name, propNames, -1, 0⟩]) props1 hok
      rw [this]
      simp

theorem find_pn_eq_lookup (l : List CompCfg) (nm : String) :
    (l.find? (·.name = nm)).map (·.propNames) =
      (l.map (fun c => (c.name, c.propNames))).lookup nm := by
  induction l with
  | nil => rfl
  | cons c t ih =>
    by_cases h : c.name = nm
    · rw [List.find?_cons_of_pos _ (by simpa using h)]
      simp [List.lookup, h]
    · rw [List.find?_cons_of_neg _ (by simpa using h)]
      simp only [List.map_cons, List.lookup]
      have hbe : (nm == c.name) = false := by
        simp only [beq_eq_false_iff_ne, ne_eq]
        exact fun he => h he.symm
      rw [hbe]
      exact ih

theorem tables_get_of_tableAt (S : EntitySystem) (a : Int) (p : Array Int × TState)
    (h : S.tableAt a = some p) :
    0 ≤ a ∧ S.tables.get? a.toNat = some (some p) := by
  unfold EntitySystem.tableAt at h
  split at h
  · rename_i ha
    refine ⟨ha, ?_⟩
    rw [List.getD_eq_getElem?_getD] at h
    rw [List.get?_eq_getElem?]
    rcases hg : S.tables[a.toNat]? with _ | x
    · rw [hg] at h
      simp at h
    · rw [hg] at h
      simp only [Option.getD_some] at h
      rw [h]
  · simp at h

/-- The per-name prop list of a configuration (what `pn` is in practice). -/
def pnOf (cfg : Config) : String → List String :=
  fun nm => (cfg.Components.lookup nm).getD []

theorem tableAt_runExit (S : EntitySystem) (x y z : Nat) (a : Int) :
    (EntitySystem.runExit S x y z).tableAt a = S.tableAt a := rfl

theorem tableAt_setTable_self (S : EntitySystem) (a : Int) (arr : Array Int)
    (ts : TState) (h0 : 0 ≤ a) (h1 : a.toNat < S.tables.length) :
    (S.setTable a arr ts).tableAt a = some (arr, ts) := by
  unfold EntitySystem.setTable EntitySystem.tableAt
  rw [if_pos h0]
  rw [List.getD_eq_getElem?_getD]
  rw [List.getElem?_set_self (by simpa using h1)]
  rfl

theorem tableAt_length (S : EntitySystem) (a : Int) (p : Array Int × TState)
    (h : S.tableAt a = some p) : a.toNat < S.tables.length := by
  obtain ⟨-, hg⟩ := tables_get_of_tableAt S a p h
  rw [List.get?_eq_getElem?] at hg
  exact (List.getElem?_eq_some.mp hg).1

theorem runExit_e (S : EntitySystem) (x y z : Nat) : (S.runExit x y z).e = S.e := rfl

theorem runExit_maskSize (S : EntitySystem) (x y z : Nat) :
    (S.runExit x y z).maskSize = S.maskSize := rfl

theorem runExit_s (S : EntitySystem) (x y z : Nat) : (S.runExit x y z).s = S.s := rfl

theorem runExit_tables (S : EntitySystem) (x y z : Nat) :
    (S.runExit x y z).tables = S.tables := rfl

theorem setTable_e (S : EntitySystem) (a : Int) (arr : Array Int) (ts : TState) :
    (S.setTable a arr ts).e = S.e := rfl

theorem setTable_s (S : EntitySystem) (a : Int) (arr : Array Int) (ts : TState) :
    (S.setTable a arr ts).s = S.s := rfl

theorem setTable_maskSize (S : EntitySystem) (a : Int) (arr : Array Int) (ts : TState) :
    (S.setTable a arr ts).maskSize = S.maskSize := rfl

theorem bclear_eq_ldiff (a m : Nat) : bclear a m = Nat.ldiff a m := by
  unfold bclear
  apply Nat.eq_of_testBit_eq
  intro i
  simp only [Nat.testBit_xor, Nat.testBit_land, Nat.testBit_ldiff]
  cases a.testBit i <;> cases m.testBit i <;> simp

theorem removeRow_size (ts : TState) (arr : Array Int) (row : Nat) :
    (ts.removeRow arr row).1.size = arr.size := by
  unfold TState.removeRow
  dsimp only
  split <;> rw [setCell_size]

/-- What one successful `removeComponent` does: the table word loses the
component bit, and the data row is freed (offset word reset, free-slot
counter incremented) exactly when the new word no longer meets the
combined mask and a row was allocated; otherwise table and offset word are
untouched. -/
theorem removeComponent_step (S S' : EntitySystem) (e : Nat) (nm : String)
    (c : CompCfg) (arr : Array Int) (ts : TState)
    (hfind : S.comps.find? (·.name = nm) = some c)
    (ha0 : 0 ≤ c.arrayIndex) (ha1 : c.arrayIndex < (S.maskSize : Int))
    (hsize : S.s.sizeOf = 2 * S.maskSize)
    (hbounds : (e + 1) * S.s.sizeOf ≤ S.e.size)
    (htab : S.tableAt c.arrayIndex = some (arr, ts))
    (hok : S.removeComponent e nm = .ok S') :
    S'.wordAt e c.arrayIndex = Nat.ldiff (S.wordAt e c.arrayIndex) c.mask ∧
    ((Nat.ldiff (S.wordAt e c.arrayIndex) c.mask &&& ts.combinedMask = 0 ∧
        0 ≤ S.offAt e c.arrayIndex) →
      S'.offAt e c.arrayIndex = -1 ∧
      ∃ arr2 ts2, S'.tableAt c.arrayIndex = some (arr2, ts2) ∧
        ts2.removeCounter = ts.removeCounter + 1 ∧
        ((S.offAt e c.arrayIndex).toNat < arr.size →
          getCell arr2 (S.offAt e c.arrayIndex) = -1)) ∧
    (¬ (Nat.ldiff (S.wordAt e c.arrayIndex) c.mask &&& ts.combinedMask = 0) →
      S'.offAt e c.arrayIndex = S.offAt e c.arrayIndex ∧
      S'.tableAt c.arrayIndex = some (arr, ts)) ∧
    ((Nat.ldiff (S.wordAt e c.arrayIndex) c.mask &&& ts.combinedMask = 0 ∧
        S.offAt e c.arrayIndex < 0) →
      S'.offAt e c.arrayIndex = S.offAt e c.arrayIndex ∧
      S'.tableAt c.arrayIndex = some (arr, ts)) := by
  have hM : 0 < S.maskSize := by omega
  have hidx0 : (0 : Int) ≤ ((e * S.s.sizeOf : Nat) : Int) + c.arrayIndex := by positivity
  have hms : S.maskSize ≤ S.s.sizeOf := by omega
  have hup : e * S.s.sizeOf + 2 * S.maskSize ≤ S.e.size := by nlinarith
  have hidx1 : (((e * S.s.sizeOf : Nat) : Int) + c.arrayIndex).toNat < S.e.size := by
    omega
  have hidx20 : (0 : Int) ≤
      ((e * S.s.sizeOf : Nat) : Int) + (S.maskSize : Int) + c.arrayIndex := by positivity
  have hidx21 : (((e * S.s.sizeOf : Nat) : Int) + (S.maskSize : Int) +
      c.arrayIndex).toNat < S.e.size := by omega
  have hne : ((e * S.s.sizeOf : Nat) : Int) + c.arrayIndex ≠
      ((e * S.s.sizeOf : Nat) : Int) + (S.maskSize : Int) + c.arrayIndex := by omega
  simp only [EntitySystem.removeComponent, hfind, bclear_eq_ldiff, runExit_e,
    runExit_maskSize, runExit_s, runExit_tables, tableAt_runExit, tableAt_update_e,
    htab] at hok
  have hword1 : getCell (setCell S.e (((e * S.s.sizeOf : Nat) : Int) + c.arrayIndex)
        ((Nat.ldiff (getCell S.e (((e * S.s.sizeOf : Nat) : Int) +
          c.arrayIndex)).toNat c.mask : Nat) : Int))
      (((e * S.s.sizeOf : Nat) : Int) + (S.maskSize : Int) + c.arrayIndex) =
      getCell S.e (((e * S.s.sizeOf : Nat) : Int) + (S.maskSize : Int) + c.arrayIndex) :=
    getCell_setCell_ne _ _ _ _ hne
  split at hok
  · -- the new word no longer meets the combined mask
    rename_i hzero
    split at hok
    · -- a row was allocated: it is freed
      rename_i hrow
      simp only [epure, Except.ok.injEq] at hok
      subst hok
      rw [hword1] at hrow
      simp only [EntitySystem.wordAt, EntitySystem.offAt, setTable_e, setTable_s,
        setTable_maskSize, runExit_e, runExit_s, runExit_maskSize, tableAt_runExit,
        tableAt_update_e, htab, hword1]
      refine ⟨?_, ?_, ?_, ?_⟩
      · rw [getCell_setCell_ne _ _ _ _ (by omega),
          getCell_setCell_self _ _ _ hidx0 hidx1]
        simp
      · rintro ⟨-, -⟩
        refine ⟨?_, ?_⟩
        · rw [getCell_setCell_self _ _ _ hidx20
            (by rw [setCell_size]; exact hidx21)]
        · refine ⟨_, _, tableAt_setTable_self _ _ _ _ ha0 ?_, rfl, ?_⟩
          · rw [show (EntitySystem.tables _ ) = S.tables from rfl]
            exact tableAt_length S c.arrayIndex (arr, ts) htab
          · intro harr
            rw [getCell_setCell_self _ _ _ hrow
              (by rw [removeRow_size]; exact harr)]
      · intro hcontra
        exact absurd hzero hcontra
      · rintro ⟨-, hneg⟩
        omega
    · -- no allocated row: nothing to free
      rename_i hrow
      simp only [epure, Except.ok.injEq] at hok
      subst hok
      rw [hword1] at hrow
      simp only [EntitySystem.wordAt, EntitySystem.offAt, runExit_e, runExit_s,
        runExit_maskSize, tableAt_runExit, tableAt_update_e, htab]
      refine ⟨?_, ?_, ?_, ?_⟩
      · rw [getCell_setCell_self _ _ _ hidx0 hidx1]
        simp
      · rintro ⟨-, hge⟩
        omega
      · intro hcontra
        exact absurd hzero hcontra
      · rintro ⟨-, -⟩
        exact ⟨hword1, trivial⟩
  · -- the new word still meets the combined mask: untouched
    rename_i hnz
    simp only [epure, Except.ok.injEq] at hok
    subst hok
    simp only [EntitySystem.wordAt, EntitySystem.offAt, runExit_e, runExit_s,
      runExit_maskSize, tableAt_runExit, tableAt_update_e, htab]
    refine ⟨?_, ?_, ?_, ?_⟩
    · rw [getCell_setCell_self _ _ _ hidx0 hidx1]
      simp
    · rintro ⟨hz, -⟩
      exact absurd hz hnz
    · intro _
      exact ⟨hword1, trivial⟩
    · rintro ⟨hz, -⟩
      exact absurd hz hnz

/-- Combined masks as built by the constructor: for every layout entry, the
created table state's `combinedMask` follows the fielded-only reference
composition `tableCombined`. -/
theorem init_combined (cfg : Config) (S0 : EntitySystem)
    (hinit : EntitySystem.init cfg = .ok S0)
    (L : List LayoutEntry) (hL : cfg.Layout = some L)
    (hnm : ∀ entry ∈ L, ∀ nm ∈ entry.components,
      (cfg.Components.lookup nm).isSome = true) :
    ∀ a entry, L.get? a = some entry →
      ∀ arr ts, S0.tables.get? a = some (some (arr, ts)) →
        ts.combinedMask =
          tableCombined (pnOf cfg) entry.components (if a = 0 then 2 else 1) := by
  unfold EntitySystem.init loadConfig at hinit
  rw [hL] at hinit
  rcases hlc : loadComps cfg.Components [] [] with _ | pr
  · rw [hlc] at hinit
    simp only [ebind_ok, ebind_err, ebind_pure] at hinit
    simp at hinit
  · obtain ⟨comps0, props0⟩ := pr
    rw [hlc] at hinit
    simp only [ebind_ok, ebind_err, ebind_pure] at hinit
    rcases hbt : buildTables comps0 props0 L 0 with _ | trip
    · rw [hbt] at hinit
      simp only [ebind_ok, ebind_err, ebind_pure] at hinit
      simp at hinit
    · obtain ⟨comps1, props1, tables⟩ := trip
      rw [hbt] at hinit
      simp only [ebind_ok, ebind_err, ebind_pure] at hinit
      rcases hfp : finalizeProps tables props1 with _ | props2
      · rw [hfp] at hinit
        simp only [ebind_ok, ebind_err, ebind_pure] at hinit
        simp at hinit
      · rw [hfp] at hinit
        simp only [ebind_ok, ebind_err, ebind_pure, epure, Except.ok.injEq] at hinit
        have htabs : S0.tables = tables := by rw [← hinit]
        intro a entry ha arr ts hts
        have hpn : ∀ entry2 ∈ L, ∀ nm ∈ entry2.components,
            (comps0.find? (·.name = nm)).map (·.propNames) = some (pnOf cfg nm) := by
          intro entry2 h2 nm hnm2
          rw [find_pn_eq_lookup, loadComps_shape cfg.Components [] [] comps0 props0 hlc]
          simp only [List.map_nil, List.nil_append]
          obtain ⟨ps, hps⟩ := Option.isSome_iff_exists.mp (hnm entry2 h2 nm hnm2)
          rw [hps]
          simp [pnOf, hps]
        have := buildTables_combined (pnOf cfg) L comps0 props0 0
          (comps1, props1, tables) hbt hpn a entry ha arr ts (by rw [← htabs]; exact hts)
        rw [this]
        have : 0 + a = a := by omega
        rw [this]

/-- Two-table configuration for the C8 counterexample: A gets mask 2 in
table 0; C and D get masks 1 and 2 in table 1 — D's bit pattern collides
numerically with the watched mask of A. -/
def cfgX : Config :=
  { Components := [("A", ["a1"]), ("C", ["c1"]), ("D", ["d1"])]
    Layout := some [⟨["A"], 4⟩, ⟨["C", "D"], 4⟩]
    entityCount := 4 }

/-- C8 counterexample state: watch mask(A) = 2, create an entity gaining A
(the watched set is then fully satisfied), then add the unrelated table-1
component D, whose word update 0 to 2 numerically satisfies the mask again. -/
def c8cex : Except String EntitySystem := do
  let S ← EntitySystem.init cfgX
  let S := S.onEnter 2 77
  let (id, S) ← S.newEntity (some [TEntry.field "a1" 1]) none
  S.addComponents id [TEntry.field "d1" 5]

/-- State for the C8 witness: `cfgAT`, handler 77 watching mask(A) = 2,
entity 0 created empty. -/
def c8state : EntitySystem :=
  match (do
    let S ← EntitySystem.init cfgAT
    let S := S.onEnter 2 77
    let p ← S.newEntity none none
    pure p.2 : Except String EntitySystem) with
  | .ok S => S
  | .error _ => dummySystem

/-- State for the C8 witness after incrementally adding A to entity 0. -/
def c8state2 : EntitySystem :=
  match addSeq c8state 0 ["A"] with
  | .ok S => S
  | .error _ => dummySystem

end Entity

/-- C8 counterexample: the claim says a registered onEnter handler, once its
watched set is gained, never fires again while the set stays satisfied.  The
dispatcher compares the single mask against every table's word updates:
watching mask(A) = 2 (table 0), creating an entity with A fires once
(table-0 word 1 to 3), and then adding the unrelated table-1 component D
(table-1 word 0 to 2, numerically satisfying the mask) fires the same
handler a second time while the watched set never stopped being satisfied. -/
theorem c8_counterexample :
    (Entity.c8cex.map fun S =>
        (Entity.countFn S.entryFired 77,
          S.entryFired.map (fun ev => (ev.fn, ev.entity, ev.before, ev.newValue)))) =
      .ok (2, [(77, 0, 1, 3), (77, 0, 0, 2)]) := by decide

/-- C8 as amended: (i) for every single `addComponent` update and every
callback registered exactly once under mask `m`, the callback fires exactly
when the update makes `(newWord and m) = m` true while it was false before —
traced as exactly one new invocation on that edge and none otherwise; and
(ii) over an incremental build confined to one table, the callback fires
exactly once if the build takes that table's word from unsatisfying to
satisfying, and never before or again — updates of other tables whose words
numerically contain the mask can, however, re-fire the handler (see the
counterexample), so the exactly-once guarantee is per table. -/
theorem c8_onEnter_firing :
    (∀ (S S' : Entity.EntitySystem) (e : Nat) (nm : String) (c : Entity.CompCfg)
        (m fn : Nat),
      S.comps.find? (·.name = nm) = some c →
      0 ≤ c.arrayIndex → c.arrayIndex < (S.maskSize : Int) →
      S.s.sizeOf = 2 * S.maskSize →
      (e + 1) * S.s.sizeOf ≤ S.e.size →
      S.entryHandlers.filter (fun p => p.2 == fn) = [(m, fn)] →
      S.addComponent e nm = .ok S' →
      Entity.countFn S'.entryFired fn = Entity.countFn S.entryFired fn +
        (if (S'.wordAt e c.arrayIndex &&& m) = m ∧
            ¬ (S.wordAt e c.arrayIndex &&& m) = m then 1 else 0)) ∧
    (∀ (cs : List String) (S S' : Entity.EntitySystem) (e : Nat) (a : Int) (m fn : Nat),
      (∀ nm ∈ cs, ∃ c : Entity.CompCfg, S.comps.find? (·.name = nm) = some c ∧
        c.arrayIndex = a ∧ 0 ≤ c.arrayIndex ∧ c.arrayIndex < (S.maskSize : Int)) →
      S.entryHandlers.filter (fun p => p.2 == fn) = [(m, fn)] →
      S.s.sizeOf = 2 * S.maskSize →
      (e + 1) * S.s.sizeOf ≤ S.e.size →
      Entity.addSeq S e cs = .ok S' →
      Entity.countFn S'.entryFired fn = Entity.countFn S.entryFired fn +
        (if (S'.wordAt e a &&& m) = m ∧ ¬ (S.wordAt e a &&& m) = m then 1 else 0)) := by
  constructor
  · intro S S' e nm c m fn hfind hc0 hc1 hsize hbounds hreg hok
    obtain ⟨-, -, -, -, -, hW, hF⟩ :=
      Entity.addComponent_step S S' e nm c hfind hc0 hc1 hsize hbounds hok
    rw [hF, Entity.countFn_append,
      Entity.countFn_matchEntry S.entryHandlers fn m hreg, hW]
  · intro cs S S' e a m fn hcs hreg hsize hbounds hok
    exact (Entity.addSeq_count cs S S' e a m fn hcs hreg hsize hbounds hok).2.2

/-- Witness for C8 at a concrete input: with handler 77 watching mask 2 and
entity 0 initially empty, the incremental build adding A fires exactly once. -/
theorem c8_onEnter_firing_witness :
    Entity.countFn Entity.c8state2.entryFired 77 =
      Entity.countFn Entity.c8state.entryFired 77 + 1 := by
  have h := c8_onEnter_firing.2 ["A"] Entity.c8state Entity.c8state2 0 0 2 77
    (by
      intro nm hnm
      simp only [List.mem_singleton] at hnm
      subst hnm
      exact ⟨⟨"A", ["x"], 0, 2⟩, by decide, by decide, by decide, by decide⟩)
    (by decide) (by decide) (by decide) (by decide)
  rw [if_pos (by decide)] at h
  exact h

namespace Entity

/-- The freshly constructed system of `cfgAT`. -/
def c2S0 : EntitySystem :=
  match EntitySystem.init cfgAT with
  | .ok S => S
  | .error _ => dummySystem

/-- The backing array of table 0 in `c2S0`. -/
def c2arr0 : Array Int :=
  match c2S0.tables.get? 0 with
  | some (some p) => p.1
  | _ => #[]

/-- The table state of table 0 in `c2S0`. -/
def c2ts0 : TState :=
  match c2S0.tables.get? 0 with
  | some (some p) => p.2
  | _ => TState.init 0 0

/-- Pre-state for the C2 witness: entity 0 of `cfgAT` carrying fielded
component A (x = 5) and tag component T in the same table. -/
def c2pre : EntitySystem :=
  match (do
    let S ← EntitySystem.init cfgAT
    let (id, S) ← S.newEntity (some [TEntry.field "x" 5]) none
    S.addComponent id "T" : Except String EntitySystem) with
  | .ok S => S
  | .error _ => dummySystem

/-- Post-state for the C2 witness: `removeComponent(0, "A")` on `c2pre`. -/
def c2post : EntitySystem :=
  match c2pre.removeComponent 0 "A" with
  | .ok S => S
  | .error _ => dummySystem

/-- The backing array of table 0 in `c2pre`. -/
def c2arr : Array Int :=
  match c2pre.tableAt 0 with
  | some p => p.1
  | none => #[]

/-- The table state of table 0 in `c2pre`. -/
def c2ts : TState :=
  match c2pre.tableAt 0 with
  | some p => p.2
  | none => TState.init 0 0

end Entity

/-- C2 counterexample: the claim says removing one component never frees the
row while any other component of the same table, fielded or tag, remains.
With fielded A and tag T co-located in `cfgAT`, the constructor ORs tag T's
bit (4) into no combined mask, so after `removeComponent(e, "A")` the mask
word 5 still holds tag T (5 &&& 4 = 4) yet the row is freed: the offset
word is -1, the row's column 0 holds the -1 sentinel, and the free-slot
counter is 1. -/
theorem c2_counterexample :
    (Entity.c2state.map fun S =>
        (S.wordAt 0 0 &&& 4, S.offAt 0 0,
          (S.tableAt 0).map (fun (p : Array Int × Entity.TState) =>
            (p.2.removeCounter, Entity.getCell p.1 0)))) =
      .ok (4, -1, some (1, -1)) := by decide

/-- C2: removal frees the row exactly on losing the table's last *fielded*
component.  (a) The combined mask a constructed table carries is the
fielded-only reference composition `tableCombined`: zero-field tag
components contribute no bit to it.  (b) A successful `removeComponent`
clears the component's bit from the entity's mask word, and it frees the
row — offset word reset to -1, the -1 sentinel written at the stored row
offset (the row's column 0), the table's free-slot counter incremented —
exactly when the new word no longer intersects that combined mask and a row
was allocated; when the new word still intersects it (some fielded
component of the table remains), offset word and table are untouched, and
likewise when no row was allocated. -/
theorem c2_removeComponent_frees_iff :
    (∀ (cfg : Entity.Config) (S0 : Entity.EntitySystem),
      Entity.EntitySystem.init cfg = .ok S0 →
      ∀ (L : List Entity.LayoutEntry), cfg.Layout = some L →
      (∀ entry ∈ L, ∀ nm ∈ entry.components,
        (cfg.Components.lookup nm).isSome = true) →
      ∀ a entry, L.get? a = some entry →
        ∀ arr ts, S0.tables.get? a = some (some (arr, ts)) →
          ts.combinedMask =
            Entity.tableCombined (Entity.pnOf cfg) entry.components
              (if a = 0 then 2 else 1)) ∧
    (∀ (S S' : Entity.EntitySystem) (e : Nat) (nm : String) (c : Entity.CompCfg)
        (arr : Array Int) (ts : Entity.TState),
      S.comps.find? (·.name = nm) = some c →
      0 ≤ c.arrayIndex → c.arrayIndex < (S.maskSize : Int) →
      S.s.sizeOf = 2 * S.maskSize →
      (e + 1) * S.s.sizeOf ≤ S.e.size →
      S.tableAt c.arrayIndex = some (arr, ts) →
      S.removeComponent e nm = .ok S' →
      S'.wordAt e c.arrayIndex = Nat.ldiff (S.wordAt e c.arrayIndex) c.mask ∧
      ((Nat.ldiff (S.wordAt e c.arrayIndex) c.mask &&& ts.combinedMask = 0 ∧
          0 ≤ S.offAt e c.arrayIndex) →
        S'.offAt e c.arrayIndex = -1 ∧
        ∃ arr2 ts2, S'.tableAt c.arrayIndex = some (arr2, ts2) ∧
          ts2.removeCounter = ts.removeCounter + 1 ∧
          ((S.offAt e c.arrayIndex).toNat < arr.size →
            Entity.getCell arr2 (S.offAt e c.arrayIndex) = -1)) ∧
      (¬ (Nat.ldiff (S.wordAt e c.arrayIndex) c.mask &&& ts.combinedMask = 0) →
        S'.offAt e c.arrayIndex = S.offAt e c.arrayIndex ∧
        S'.tableAt c.arrayIndex = some (arr, ts)) ∧
      ((Nat.ldiff (S.wordAt e c.arrayIndex) c.mask &&& ts.combinedMask = 0 ∧
          S.offAt e c.arrayIndex < 0) →
        S'.offAt e c.arrayIndex = S.offAt e c.arrayIndex ∧
        S'.tableAt c.arrayIndex = some (arr, ts))) :=
  ⟨fun cfg S0 hinit L hL hnm =>
      Entity.init_combined cfg S0 hinit L hL hnm,
    fun S S' e nm c arr ts hfind ha0 ha1 hsize hbounds htab hok =>
      Entity.removeComponent_step S S' e nm c arr ts hfind ha0 ha1 hsize hbounds
        htab hok⟩

/-- Witness for C2 at a concrete input: in `cfgAT`, part (a) gives the
constructed table's combined mask, and part (b), applied to entity 0
carrying fielded A and tag T, gives the freed row after
`removeComponent(0, "A")`. -/
theorem c2_removeComponent_frees_iff_witness :
    Entity.c2ts0.combinedMask =
      Entity.tableCombined (Entity.pnOf Entity.cfgAT) ["A", "T"] 2 ∧
    Entity.c2post.offAt 0 0 = -1 ∧
    (∃ arr2 ts2, Entity.c2post.tableAt 0 = some (arr2, ts2) ∧
      ts2.removeCounter = Entity.c2ts.removeCounter + 1 ∧
      ((Entity.c2pre.offAt 0 0).toNat < Entity.c2arr.size →
        Entity.getCell arr2 (Entity.c2pre.offAt 0 0) = -1)) := by
  have ha := c2_removeComponent_frees_iff.1 Entity.cfgAT Entity.c2S0 (by decide)
    [⟨["A", "T"], 4⟩] rfl (by decide) 0 ⟨["A", "T"], 4⟩ rfl
    Entity.c2arr0 Entity.c2ts0 (by decide)
  have hb := c2_removeComponent_frees_iff.2 Entity.c2pre Entity.c2post 0 "A"
    ⟨"A", ["x"], 0, 2⟩ Entity.c2arr Entity.c2ts (by decide) (by decide) (by decide)
    (by decide) (by decide) (by decide) (by decide)
  have hfree := hb.2.1 (by rw [← Entity.bclear_eq_ldiff]; decide)
  exact ⟨ha, hfree.1, hfree.2⟩

namespace Entity

/-! ## Reachability, engine invariants and the serialization round trip -/

theorem getCell_append_left (a b : Array Int) (i : Int)
    (h : 0 ≤ i → i.toNat < a.size) : getCell (a ++ b) i = getCell a i := by
  unfold getCell
  by_cases h0 : 0 ≤ i
  · have h1 := h h0
    rw [dif_pos ⟨h0, by simpa using Nat.lt_of_lt_of_le h1 (by simp)⟩, dif_pos ⟨h0, h1⟩]
    simp [Array.getElem_append, h1]
  · rw [dif_neg (by tauto), dif_neg (by tauto)]

theorem getCell_append_zeros (a : Array Int) (n : Nat) (i : Int)
    (h : a.size ≤ i.toNat) : getCell (a ++ Array.mkArray n 0) i = 0 := by
  unfold getCell
  split
  · rename_i hin
    rw [Array.get_eq_getElem, Array.getElem_append_right (by simpa using h)]
    simp
  · rfl

theorem growIfNeeded_size (arr : Array Int) (id s : Nat) :
    (growIfNeeded arr id s).size = if id * s ≥ arr.size then 2 * arr.size else arr.size := by
  unfold growIfNeeded
  split <;> simp <;> omega

theorem getCell_growIfNeeded (arr : Array Int) (id s : Nat) (i : Int)
    (h : 0 ≤ i → i.toNat < arr.size) : getCell (growIfNeeded arr id s) i = getCell arr i := by
  unfold growIfNeeded
  split
  · exact getCell_append_left arr _ i h
  · rfl

theorem getCell_growIfNeeded_zeros (arr : Array Int) (id s : Nat) (i : Int)
    (h : arr.size ≤ i.toNat) : getCell (growIfNeeded arr id s) i = 0 := by
  unfold growIfNeeded
  split
  · exact getCell_append_zeros arr _ i h
  · exact getCell_oob arr i (by omega)

end Entity

namespace Entity

/-- The number of row strides of the index table's backing array. -/
def rowsOf (S : EntitySystem) : Nat := S.e.size / S.s.sizeOf

/-- The OR of the masks of the listed components assigned to table `a`. -/
def tableMaskOr (cs : List CompCfg) (a : Nat) : Nat :=
  cs.foldr (fun c acc => if c.arrayIndex = (a : Int) then c.mask ||| acc else acc) 0

/-- The base bit of mask word `a`: the exists bit lives in word 0. -/
def wordBase (a : Nat) : Nat := if a = 0 then 1 else 0

/-- Every bit that mask word `a` may carry: the base bit plus the bits of
the components assigned to table `a`. -/
def fullMask (cs : List CompCfg) (a : Nat) : Nat := wordBase a ||| tableMaskOr cs a

/-- The fresh-table requirement of a fielded prop: its table slot exists,
is in its initial allocator state, matches the prop's row width, and has a
zeroed backing array of positive size in whole rows. -/
def tableSpecOK (S0 : EntitySystem) (p : PropCfg) : Prop :=
  match S0.tableAt p.array with
  | none => False
  | some (arr, ts) =>
      ts = TState.init p.sizeOf ts.combinedMask ∧ ts.combinedMask ≠ 0 ∧
      p.sizeOf ∣ arr.size ∧ 0 < arr.size ∧ arr = Array.mkArray arr.size 0

instance (S0 : EntitySystem) (p : PropCfg) : Decidable (tableSpecOK S0 p) :=
  match h : S0.tableAt p.array with
  | none => isFalse (by simp [tableSpecOK, h])
  | some (arr, ts) =>
      decidable_of_iff (ts = TState.init p.sizeOf ts.combinedMask ∧ ts.combinedMask ≠ 0 ∧
        p.sizeOf ∣ arr.size ∧ 0 < arr.size ∧ arr = Array.mkArray arr.size 0)
        (by simp [tableSpecOK, h])

/-- A fielded component's bit is part of its table's combined mask. -/
def combinedHolds (S : EntitySystem) (c : CompCfg) : Prop :=
  match S.tableAt c.arrayIndex with
  | none => True
  | some (_, ts) => ts.combinedMask &&& c.mask = c.mask

instance (S : EntitySystem) (c : CompCfg) : Decidable (combinedHolds S c) :=
  match h : S.tableAt c.arrayIndex with
  | none => isTrue (by simp [combinedHolds, h])
  | some (arr, ts) =>
      decidable_of_iff (ts.combinedMask &&& c.mask = c.mask) (by simp [combinedHolds, h])

/-- Well-formedness of a freshly constructed system, as the constructor
lays the registry out: word geometry, zeroed index array, component bits
assigned in range as distinct powers of two per table (above the exists
bit in table 0), prop records tied to their components with in-row offsets,
and initialized data tables for every fielded prop. -/
def RegOK (cfg : Config) (S0 : EntitySystem) : Prop :=
  1 ≤ S0.maskSize ∧
  S0.s = TState.init (S0.maskSize * 2) 0 ∧
  1 ≤ cfg.entityCount ∧
  S0.e = Array.mkArray (S0.maskSize * 2 * cfg.entityCount) 0 ∧
  (∀ c ∈ S0.comps, 0 ≤ c.arrayIndex ∧ c.arrayIndex < (S0.maskSize : Int) ∧
    ∃ k ∈ List.range 64, c.mask = 2 ^ k ∧ (c.arrayIndex = 0 → 1 ≤ k)) ∧
  (S0.comps.map (fun c => c.name)).Nodup ∧
  S0.comps.Pairwise (fun c d => c.arrayIndex = d.arrayIndex → c.mask ≠ d.mask) ∧
  (S0.props.map (fun p => p.name)).Nodup ∧
  (∀ p ∈ S0.props, ∃ c ∈ S0.comps, p.component = c.name ∧ p.array = c.arrayIndex ∧
    p.componentMask = c.mask ∧ c.propNames ≠ []) ∧
  (∀ c ∈ S0.comps, c.propNames ≠ [] →
    ∃ p ∈ S0.props, p.array = c.arrayIndex ∧ p.componentMask = c.mask) ∧
  (∀ p ∈ S0.props, 1 ≤ p.offset ∧ p.offset < (p.sizeOf : Int) ∧ 2 ≤ p.sizeOf) ∧
  S0.props.Pairwise (fun p q => p.array = q.array → p.offset ≠ q.offset) ∧
  (∀ p ∈ S0.props, tableSpecOK S0 p) ∧
  (∀ c ∈ S0.comps, c.propNames ≠ [] → combinedHolds S0 c)

instance (cfg : Config) (S0 : EntitySystem) : Decidable (RegOK cfg S0) := by
  unfold RegOK; exact inferInstance

/-- The state invariant every reachable state satisfies: word geometry, the
index array a whole number of rows with the high-water mark inside it and
non-negative word cells, live rows below the high-water mark, live words
sub-masks of the admissible bit set, an allocated data row behind every
fielded component bit, and component bits part of their combined masks. -/
def INV (S : EntitySystem) : Prop :=
  S.s.sizeOf = 2 * S.maskSize ∧
  S.s.isEntityTable = true ∧
  S.s.sizeOf ∣ S.e.size ∧
  0 < S.e.size ∧
  S.s.rowCounter ≤ rowsOf S ∧
  (∀ i ∈ List.range (rowsOf S), S.existsEnt i = true → i < S.s.rowCounter) ∧
  (∀ i ∈ List.range (rowsOf S), ∀ a ∈ List.range S.maskSize,
    0 ≤ getCell S.e (((i * S.s.sizeOf : Nat) : Int) + (a : Int))) ∧
  (∀ i ∈ List.range (rowsOf S), S.existsEnt i = true → ∀ a ∈ List.range S.maskSize,
    S.wordAt i (a : Int) ||| fullMask S.comps a = fullMask S.comps a) ∧
  (∀ i ∈ List.range (rowsOf S), S.existsEnt i = true → ∀ c ∈ S.comps,
    c.propNames ≠ [] → S.wordAt i c.arrayIndex &&& c.mask = c.mask →
      0 ≤ S.offAt i c.arrayIndex) ∧
  (∀ c ∈ S.comps, c.propNames ≠ [] → combinedHolds S c)

instance (S : EntitySystem) : Decidable (INV S) := by
  unfold INV; exact inferInstance

/-- The registry and word geometry of a state (everything the mutation
operations never change). -/
def Registry (S : EntitySystem) : List CompCfg × List PropCfg × Nat × Nat :=
  (S.comps, S.props, S.maskSize, S.s.sizeOf)

/-- The states reachable through the public engine API from a successful,
well-formed construction: templated or bare entity creation (ids handed out
by the allocator), component addition and removal, template application,
field writes, entity removal, and handler registration. -/
inductive Reachable (cfg : Config) : EntitySystem → Prop where
  | base (S0 : EntitySystem) (hinit : EntitySystem.init cfg = .ok S0)
      (hreg : RegOK cfg S0) : Reachable cfg S0
  | newE (S S' : EntitySystem) (tpl : Option (List TEntry)) (id : Nat)
      (h : Reachable cfg S) (hok : S.newEntity tpl none = .ok (id, S')) :
      Reachable cfg S'
  | addC (S S' : EntitySystem) (e : Nat) (nm : String)
      (h : Reachable cfg S) (hok : S.addComponent e nm = .ok S') : Reachable cfg S'
  | addCs (S S' : EntitySystem) (e : Nat) (t : List TEntry)
      (h : Reachable cfg S) (hok : S.addComponents e t = .ok S') : Reachable cfg S'
  | remC (S S' : EntitySystem) (e : Nat) (nm : String)
      (h : Reachable cfg S) (hok : S.removeComponent e nm = .ok S') : Reachable cfg S'
  | remE (S : EntitySystem) (e : Nat) (h : Reachable cfg S) :
      Reachable cfg (S.removeEntity e)
  | setV (S S' : EntitySystem) (e : Nat) (nm : String) (v : Int)
      (h : Reachable cfg S) (hok : S.setValue e nm v = .ok S') : Reachable cfg S'
  | onEn (S : EntitySystem) (m fn : Nat) (h : Reachable cfg S) :
      Reachable cfg (S.onEnter m fn)
  | onEx (S : EntitySystem) (m fn : Nat) (h : Reachable cfg S) :
      Reachable cfg (S.onExit m fn)
  | offEn (S : EntitySystem) (fn : Nat) (h : Reachable cfg S) :
      Reachable cfg (S.offEnter fn)
  | offEx (S : EntitySystem) (fn : Nat) (h : Reachable cfg S) :
      Reachable cfg (S.offExit fn)

end Entity

namespace Entity

/-- Foldl preserves any invariant its step preserves. -/
theorem foldl_preserve {A : Type} {B : Type} (P : A → Prop) (f : A → B → A)
    (l : List B) (x : A) (hx : P x) (hf : ∀ a b, P a → P (f a b)) :
    P (l.foldl f x) := by
  induction l generalizing x with
  | nil => exact hx
  | cons b bs ih => exact ih (f x b) (hf x b hx)

/-- Monadic foldl over `Except` preserves any invariant its step preserves. -/
theorem foldlM_preserve {A B E : Type} (P : A → Prop)
    (f : A → B → Except E A) (l : List B) (x y : A) (hx : P x)
    (hf : ∀ a b a2, P a → f a b = .ok a2 → P a2)
    (hok : l.foldlM f x = .ok y) : P y := by
  induction l generalizing x with
  | nil =>
    have h2 : (Except.ok x : Except E A) = Except.ok y := hok
    cases h2
    exact hx
  | cons b bs ih =>
    rw [List.foldlM_cons] at hok
    rcases hstep : f x b with _ | x2
    · rw [hstep] at hok; cases hok
    · rw [hstep] at hok
      rw [show (Bind.bind (Except.ok x2) fun x3 => List.foldlM f x3 bs) =
        List.foldlM f x2 bs from rfl] at hok
      exact ih x2 (hf x b x2 hx hstep) hok

/-- `insertRow` never changes the shape fields of the table state, and the
resulting array is the (possibly grown) input array. -/
theorem insertRow_shape (ts : TState) (arr : Array Int) (at? : Option Nat)
    (id : Nat) (arr2 : Array Int) (ts2 : TState)
    (hok : ts.insertRow arr at? = .ok (id, arr2, ts2)) :
    ts2.sizeOf = ts.sizeOf ∧ ts2.isEntityTable = ts.isEntityTable ∧
      ts2.combinedMask = ts.combinedMask ∧ arr2 = growIfNeeded arr id ts.sizeOf := by
  unfold TState.insertRow at hok
  rcases at? with _ | a
  · by_cases hrc : ts.removeCounter > 0
    · simp only [if_pos hrc] at hok
      rcases hskip : ts.skipOnRemove with _ | k <;> simp only [hskip] at hok
      · simp only [ebind_err] at hok; cases hok
      · rcases hff : findFree arr ts.sizeOf ts.isEntityTable k (ts.rowCounter - k) with _ | i <;>
          simp only [hff] at hok
        · simp only [ebind_err] at hok; cases hok
        · simp only [ebind_ok, ebind_pure, epure, Except.ok.injEq, Prod.mk.injEq] at hok
          obtain ⟨h1, h2, h3⟩ := hok
          subst h1; subst h3; rw [← h2]
          refine ⟨?_, ?_, ?_, ?_⟩ <;> first | rfl | trivial
    · simp only [if_neg hrc, ebind_ok, ebind_pure, epure, Except.ok.injEq, Prod.mk.injEq] at hok
      obtain ⟨h1, h2, h3⟩ := hok
      subst h1; subst h3; rw [← h2]
      refine ⟨?_, ?_, ?_, ?_⟩ <;> first | rfl | trivial
  · simp only [ebind_ok, ebind_pure, epure, Except.ok.injEq, Prod.mk.injEq] at hok
    obtain ⟨h1, h2, h3⟩ := hok
    subst h1; subst h3; rw [← h2]
    by_cases hgt : a > ts.rowCounter
    · simp only [if_pos hgt]
      refine ⟨?_, ?_, ?_, ?_⟩ <;> first | rfl | trivial
    · simp only [if_neg hgt]
      refine ⟨?_, ?_, ?_, ?_⟩ <;> first | rfl | trivial

end Entity

namespace Entity

/-- Inversion of a successful `Except` bind. -/
theorem ebind_ok_inv {E A B : Type} (x : Except E A) (f : A → Except E B) (y : B)
    (h : Bind.bind x f = .ok y) : ∃ a, x = .ok a ∧ f a = .ok y := by
  rcases x with e | a
  · cases h
  · exact ⟨a, rfl, h⟩

/-- Inversion of a successful `Except` pure. -/
theorem epure_inv {E A : Type} (x y : A) (h : (pure x : Except E A) = .ok y) : x = y := by
  cases h; rfl

/-- The registry projections of a state (never changed by data operations). -/
def RegSame (S T : EntitySystem) : Prop :=
  T.comps = S.comps ∧ T.props = S.props ∧ T.maskSize = S.maskSize ∧
    T.s.sizeOf = S.s.sizeOf ∧ T.s.isEntityTable = S.s.isEntityTable

theorem regSame_refl (S : EntitySystem) : RegSame S S := ⟨rfl, rfl, rfl, rfl, rfl⟩

theorem regSame_trans {S T U : EntitySystem} (h1 : RegSame S T) (h2 : RegSame T U) :
    RegSame S U := by
  obtain ⟨a1, b1, c1, d1, e1⟩ := h1
  obtain ⟨a2, b2, c2, d2, e2⟩ := h2
  exact ⟨a2.trans a1, b2.trans b1, c2.trans c1, d2.trans d1, e2.trans e1⟩

theorem setTable_regSame (S : EntitySystem) (a : Int) (arr : Array Int) (ts : TState) :
    RegSame S (S.setTable a arr ts) := ⟨rfl, rfl, rfl, rfl, rfl⟩

end Entity

namespace Entity

theorem addComponent_regSame (S S' : EntitySystem) (e : Nat) (nm : String)
    (hok : S.addComponent e nm = .ok S') : RegSame S S' := by
  unfold EntitySystem.addComponent at hok
  rcases hf : S.comps.find? (·.name = nm) with _ | c <;> simp only [hf] at hok
  · cases hok
  · split at hok
    · split at hok
      · simp only [ebind_err] at hok
        cases hok
      · obtain ⟨trip, hins, hrest⟩ := ebind_ok_inv _ _ _ hok
        obtain ⟨row, arr2, ts2⟩ := trip
        simp only [ebind_ok, ebind_pure, epure, Except.ok.injEq] at hrest
        subst hrest
        exact ⟨rfl, rfl, rfl, rfl, rfl⟩
    · simp only [ebind_ok, ebind_pure, epure, Except.ok.injEq] at hok
      subst hok
      exact ⟨rfl, rfl, rfl, rfl, rfl⟩

theorem removeComponent_regSame (S S' : EntitySystem) (e : Nat) (nm : String)
    (hok : S.removeComponent e nm = .ok S') : RegSame S S' := by
  unfold EntitySystem.removeComponent at hok
  rcases hf : S.comps.find? (·.name = nm) with _ | c <;> simp only [hf] at hok
  · cases hok
  · split at hok
    · have hS' := epure_inv _ _ hok
      subst hS'
      exact ⟨rfl, rfl, rfl, rfl, rfl⟩
    · split at hok
      · split at hok
        · have hS' := epure_inv _ _ hok
          subst hS'
          exact ⟨rfl, rfl, rfl, rfl, rfl⟩
        · have hS' := epure_inv _ _ hok
          subst hS'
          exact ⟨rfl, rfl, rfl, rfl, rfl⟩
      · have hS' := epure_inv _ _ hok
        subst hS'
        exact ⟨rfl, rfl, rfl, rfl, rfl⟩

theorem addComponentsAux_regSame (t : List TEntry) (S S' : EntitySystem) (e : Nat)
    (eRow : Int) (masks masks2 : List Nat) (rows : List (Int × Nat))
    (hok : S.addComponentsAux e eRow t masks rows = .ok (S', masks2)) : RegSame S S' := by
  induction t generalizing S masks rows with
  | nil =>
    have h := epure_inv _ _ hok
    injection h with h1 h2
    subst h1
    exact regSame_refl S
  | cons entry rest ih =>
    match entry with
    | TEntry.tags cs =>
      obtain ⟨Smid, hfold, hrest⟩ := ebind_ok_inv _ _ _ hok
      have h1 : RegSame S Smid := by
        refine foldlM_preserve (fun T => RegSame S T) _ cs S Smid (regSame_refl S) ?_ hfold
        intro a b a2 ha hstep
        exact regSame_trans ha (addComponent_regSame a a2 e b hstep)
      exact regSame_trans h1 (ih Smid masks rows hrest)
    | TEntry.idKey v => exact ih S masks rows hok
    | TEntry.field name value =>
      unfold EntitySystem.addComponentsAux at hok
      rcases hf : S.props.find? (·.name = name) with _ | cfg <;> simp only [hf] at hok
      · cases hok
      · split at hok
        · -- row already resolved in the per-call cache
          simp only [ebind_ok, ebind_pure, epure] at hok
          split at hok
          · have h2 := ih _ _ _ hok
            exact regSame_trans ⟨rfl, rfl, rfl, rfl, rfl⟩ h2
          · have h2 := ih _ _ _ hok
            exact regSame_trans ⟨rfl, rfl, rfl, rfl, rfl⟩ h2
        · split at hok
          · -- a non-negative offset word resolves the row
            simp only [ebind_ok, ebind_pure, epure] at hok
            split at hok
            · have h2 := ih _ _ _ hok
              exact regSame_trans ⟨rfl, rfl, rfl, rfl, rfl⟩ h2
            · have h2 := ih _ _ _ hok
              exact regSame_trans ⟨rfl, rfl, rfl, rfl, rfl⟩ h2
          · split at hok
            · simp only [ebind_err] at hok
              cases hok
            · obtain ⟨trip2, hins, hrest⟩ := ebind_ok_inv _ _ _ hok
              obtain ⟨r, arr3, ts3⟩ := trip2
              simp only [ebind_ok, ebind_pure, epure] at hrest
              split at hrest
              · have h2 := ih _ _ _ hrest
                exact regSame_trans ⟨rfl, rfl, rfl, rfl, rfl⟩ h2
              · have h2 := ih _ _ _ hrest
                exact regSame_trans ⟨rfl, rfl, rfl, rfl, rfl⟩ h2

end Entity

namespace Entity

theorem applyMasks_regSame (S : EntitySystem) (e : Nat) (eRow : Int) (masks : List Nat) :
    RegSame S (S.applyMasks e eRow masks) := by
  unfold EntitySystem.applyMasks
  refine foldl_preserve (fun T => RegSame S T) _ _ S (regSame_refl S) ?_
  intro a b ha
  exact regSame_trans ha ⟨rfl, rfl, rfl, rfl, rfl⟩

theorem addComponents_regSame (S S' : EntitySystem) (e : Nat) (t : List TEntry)
    (hok : S.addComponents e t = .ok S') : RegSame S S' := by
  unfold EntitySystem.addComponents at hok
  obtain ⟨pr, haux, hrest⟩ := ebind_ok_inv _ _ _ hok
  obtain ⟨Smid, masks2⟩ := pr
  simp only [epure, Except.ok.injEq] at hrest
  subst hrest
  exact regSame_trans (addComponentsAux_regSame _ _ _ _ _ _ _ _ haux)
    (applyMasks_regSame Smid e _ masks2)

theorem newEntity_regSame (S S' : EntitySystem) (tpl : Option (List TEntry))
    (id? : Option Nat) (id : Nat) (hok : S.newEntity tpl id? = .ok (id, S')) :
    RegSame S S' := by
  unfold EntitySystem.newEntity at hok
  rcases id? with _ | idv
  · obtain ⟨trip, hins, hrest⟩ := ebind_ok_inv _ _ _ hok
    obtain ⟨entityId, e2, s2⟩ := trip
    obtain ⟨h1, h2, -, -⟩ := insertRow_shape S.s S.e none entityId e2 s2 hins
    rcases tpl with _ | t
    · simp only [epure, Except.ok.injEq, Prod.mk.injEq] at hrest
      obtain ⟨-, hS⟩ := hrest
      subst hS
      exact ⟨rfl, rfl, rfl, h1, h2⟩
    · obtain ⟨Smid, hadd, hfin⟩ := ebind_ok_inv _ _ _ hrest
      simp only [epure, Except.ok.injEq, Prod.mk.injEq] at hfin
      obtain ⟨-, hS⟩ := hfin
      subst hS
      refine regSame_trans ?_ (addComponents_regSame _ _ _ _ hadd)
      exact ⟨rfl, rfl, rfl, h1, h2⟩
  · dsimp only at hok
    by_cases hex : S.existsEnt idv = true
    · rw [if_pos hex] at hok
      simp only [ebind_err] at hok
      cases hok
    · rw [if_neg hex] at hok
      obtain ⟨trip, hins, hrest⟩ := ebind_ok_inv _ _ _ hok
      obtain ⟨entityId, e2, s2⟩ := trip
      obtain ⟨h1, h2, -, -⟩ := insertRow_shape S.s S.e (some idv) entityId e2 s2 hins
      rcases tpl with _ | t
      · simp only [epure, Except.ok.injEq, Prod.mk.injEq] at hrest
        obtain ⟨-, hS⟩ := hrest
        subst hS
        exact ⟨rfl, rfl, rfl, h1, h2⟩
      · obtain ⟨Smid, hadd, hfin⟩ := ebind_ok_inv _ _ _ hrest
        simp only [epure, Except.ok.injEq, Prod.mk.injEq] at hfin
        obtain ⟨-, hS⟩ := hfin
        subst hS
        refine regSame_trans ?_ (addComponents_regSame _ _ _ _ hadd)
        exact ⟨rfl, rfl, rfl, h1, h2⟩

theorem removeEntity_regSame (S : EntitySystem) (e : Nat) :
    RegSame S (S.removeEntity e) := by
  have h1 : RegSame S ((List.range S.maskSize).foldl
      (fun T i =>
        let mask : Nat := (getCell T.e (((e * S.s.sizeOf : Nat) : Int) + (i : Int))).toNat
        let rowOffset := getCell T.e (((e * S.s.sizeOf : Nat) : Int) + (T.maskSize : Int) + (i : Int))
        let T2 := { T with
          e := setCell T.e (((e * S.s.sizeOf : Nat) : Int) + (T.maskSize : Int) + (i : Int)) (-1) }
        let T3 := T2.runExit e mask 0
        if rowOffset ≥ 0 then
          match T3.tableAt (i : Int) with
          | none => T3
          | some (arr, ts) =>
            let arr := setCell arr rowOffset (-1)
            let (arr, ts) := ts.removeRow arr ((rowOffset / (ts.sizeOf : Int)).toNat)
            T3.setTable (i : Int) arr ts
        else T3) S) := by
    refine foldl_preserve _ _ _ _ (regSame_refl S) ?_
    intro a b ha
    refine regSame_trans ha ?_
    dsimp only
    split
    · split
      · exact ⟨rfl, rfl, rfl, rfl, rfl⟩
      · exact ⟨rfl, rfl, rfl, rfl, rfl⟩
    · exact ⟨rfl, rfl, rfl, rfl, rfl⟩
  exact regSame_trans h1 ⟨rfl, rfl, rfl, rfl, rfl⟩

theorem setValue_regSame (S S' : EntitySystem) (e : Nat) (nm : String) (v : Int)
    (hok : S.setValue e nm v = .ok S') : RegSame S S' := by
  unfold EntitySystem.setValue at hok
  rcases hf : S.props.find? (·.name = nm) with _ | cfg <;> simp only [hf] at hok
  · cases hok
  · split at hok
    · have h := epure_inv _ _ hok
      subst h
      exact regSame_refl S
    · have h := epure_inv _ _ hok
      subst h
      exact ⟨rfl, rfl, rfl, rfl, rfl⟩

/-- Every reachable state carries the registry of its construction. -/
theorem reachable_regSame (cfg : Config) (S : EntitySystem)
    (h : Reachable cfg S) :
    ∃ S0, EntitySystem.init cfg = .ok S0 ∧ RegOK cfg S0 ∧ RegSame S0 S := by
  induction h with
  | base S0 hinit hreg => exact ⟨S0, hinit, hreg, regSame_refl S0⟩
  | newE S S' tpl id h hok ih =>
    obtain ⟨S0, hinit, hreg, hsame⟩ := ih
    exact ⟨S0, hinit, hreg, regSame_trans hsame (newEntity_regSame S S' tpl none id hok)⟩
  | addC S S' e nm h hok ih =>
    obtain ⟨S0, hinit, hreg, hsame⟩ := ih
    exact ⟨S0, hinit, hreg, regSame_trans hsame (addComponent_regSame S S' e nm hok)⟩
  | addCs S S' e t h hok ih =>
    obtain ⟨S0, hinit, hreg, hsame⟩ := ih
    exact ⟨S0, hinit, hreg, regSame_trans hsame (addComponents_regSame S S' e t hok)⟩
  | remC S S' e nm h hok ih =>
    obtain ⟨S0, hinit, hreg, hsame⟩ := ih
    exact ⟨S0, hinit, hreg, regSame_trans hsame (removeComponent_regSame S S' e nm hok)⟩
  | remE S e h ih =>
    obtain ⟨S0, hinit, hreg, hsame⟩ := ih
    exact ⟨S0, hinit, hreg, regSame_trans hsame (removeEntity_regSame S e)⟩
  | setV S S' e nm v h hok ih =>
    obtain ⟨S0, hinit, hreg, hsame⟩ := ih
    exact ⟨S0, hinit, hreg, regSame_trans hsame (setValue_regSame S S' e nm v hok)⟩
  | onEn S m fn h ih =>
    obtain ⟨S0, hinit, hreg, hsame⟩ := ih
    exact ⟨S0, hinit, hreg, regSame_trans hsame ⟨rfl, rfl, rfl, rfl, rfl⟩⟩
  | onEx S m fn h ih =>
    obtain ⟨S0, hinit, hreg, hsame⟩ := ih
    exact ⟨S0, hinit, hreg, regSame_trans hsame ⟨rfl, rfl, rfl, rfl, rfl⟩⟩
  | offEn S fn h ih =>
    obtain ⟨S0, hinit, hreg, hsame⟩ := ih
    exact ⟨S0, hinit, hreg, regSame_trans hsame ⟨rfl, rfl, rfl, rfl, rfl⟩⟩
  | offEx S fn h ih =>
    obtain ⟨S0, hinit, hreg, hsame⟩ := ih
    exact ⟨S0, hinit, hreg, regSame_trans hsame ⟨rfl, rfl, rfl, rfl, rfl⟩⟩

end Entity

namespace Entity

/-- Successful `toJSON` output: the filterMap over live rows, literally. -/
theorem toJSON_entities (S : EntitySystem) (masks : Option (List Nat)) (out : ExportJson)
    (hok : S.toJSON masks = .ok out) (hsz : S.s.sizeOf = 2 * S.maskSize) :
    out.entities = (List.range S.s.rowCounter).filterMap fun i =>
      let rowOffset : Int := ((i * S.s.sizeOf : Nat) : Int)
      if S.existsEnt i then
        let tags := S.exportTags masks rowOffset
        let fields := S.exportFields masks rowOffset
        if tags.length ≠ 0 ∨ fields.length ≠ 0 then
          some { id := i, tags := tags, fields := fields }
        else none
      else none := by
  unfold EntitySystem.toJSON at hok
  rw [if_neg (by omega)] at hok
  have h := epure_inv _ _ hok
  rw [← h]

/-- Members of the export list are exactly the live data-carrying rows. -/
theorem toJSON_mem (S : EntitySystem) (masks : Option (List Nat)) (out : ExportJson)
    (hok : S.toJSON masks = .ok out) (hsz : S.s.sizeOf = 2 * S.maskSize) (ent : ExportEntity) :
    ent ∈ out.entities ↔ ent.id < S.s.rowCounter ∧ S.existsEnt ent.id = true ∧
      ent.tags = S.exportTags masks ((ent.id * S.s.sizeOf : Nat) : Int) ∧
      ent.fields = S.exportFields masks ((ent.id * S.s.sizeOf : Nat) : Int) ∧
      (ent.tags.length ≠ 0 ∨ ent.fields.length ≠ 0) := by
  rw [toJSON_entities S masks out hok hsz]
  rw [List.mem_filterMap]
  constructor
  · rintro ⟨i, hi, hf⟩
    rw [List.mem_range] at hi
    dsimp only at hf
    split at hf
    · split at hf
      · rename_i hex hdata
        injection hf with hf
        subst hf
        exact ⟨hi, by simpa using hex, rfl, rfl, by simpa using hdata⟩
      · cases hf
    · cases hf
  · rintro ⟨hi, hex, htags, hfields, hdata⟩
    refine ⟨ent.id, List.mem_range.mpr hi, ?_⟩
    dsimp only
    rw [if_pos (by simpa using hex), if_pos (by rw [← htags, ← hfields]; simpa using hdata)]
    rw [← htags, ← hfields]

/-- Distinct ascending export ids. -/
theorem toJSON_pairwise (S : EntitySystem) (masks : Option (List Nat)) (out : ExportJson)
    (hok : S.toJSON masks = .ok out) (hsz : S.s.sizeOf = 2 * S.maskSize) :
    out.entities.Pairwise (fun x y => x.id < y.id) := by
  rw [toJSON_entities S masks out hok hsz]
  refine List.Pairwise.filterMap _ ?_ (List.pairwise_lt_range S.s.rowCounter)
  intro i j hij x hx y hy
  dsimp only at hx hy
  split at hx
  · split at hx
    · injection hx with hx
      subst hx
      split at hy
      · split at hy
        · injection hy with hy
          subst hy
          exact hij
        · cases hy
      · cases hy
    · cases hx
  · cases hx

/-- Inserting below every element of a descending list appends at the end. -/
theorem insertDesc_append (x : ExportEntity) (ys : List ExportEntity)
    (h : ∀ y ∈ ys, x.id < y.id) : insertDesc x ys = ys ++ [x] := by
  induction ys with
  | nil => rfl
  | cons y ys ih =>
    unfold insertDesc
    rw [if_neg (by
      have := h y (List.mem_cons_self y ys)
      omega)]
    rw [ih (fun z hz => h z (List.mem_cons_of_mem y hz))]
    rfl

/-- Sorting a strictly ascending list by descending id reverses it. -/
theorem sortDesc_of_ascending (l : List ExportEntity)
    (h : l.Pairwise (fun x y => x.id < y.id)) : sortDesc l = l.reverse := by
  induction l with
  | nil => rfl
  | cons x xs ih =>
    rw [List.pairwise_cons] at h
    obtain ⟨hx, hxs⟩ := h
    show insertDesc x (sortDesc xs) = (x :: xs).reverse
    rw [ih hxs, insertDesc_append x xs.reverse (fun y hy => hx y (List.mem_reverse.mp hy))]
    simp

end Entity

namespace Entity

theorem foldl_setCell_size (e : Array Int) (off : Int) (m : Nat) (v : Nat → Int) :
    ((List.range m).foldl (fun acc (i : Nat) => setCell acc (off + (i : Int)) (v i)) e).size =
      e.size := by
  induction m generalizing e with
  | zero => rfl
  | succ m ih =>
    rw [List.range_succ, List.foldl_append]
    simp only [List.foldl_cons, List.foldl_nil]
    rw [setCell_size, ih]

theorem foldl_setCell_get_outside (e : Array Int) (off : Int) (m : Nat) (v : Nat → Int)
    (j : Int) (h : j < off ∨ off + (m : Int) ≤ j) :
    getCell ((List.range m).foldl (fun acc (i : Nat) => setCell acc (off + (i : Int)) (v i)) e) j =
      getCell e j := by
  induction m generalizing e with
  | zero => rfl
  | succ m ih =>
    rw [List.range_succ, List.foldl_append]
    simp only [List.foldl_cons, List.foldl_nil]
    rw [getCell_setCell_ne _ _ _ _ (by push_cast at h ⊢; omega)]
    exact ih e (by push_cast at h ⊢; omega)

theorem foldl_setCell_get_inside (e : Array Int) (off : Int) (m : Nat) (v : Nat → Int)
    (k : Nat) (hk : k < m) (h0 : 0 ≤ off) (hb : (off + (k : Int)).toNat < e.size) :
    getCell ((List.range m).foldl (fun acc (i : Nat) => setCell acc (off + (i : Int)) (v i)) e)
      (off + (k : Int)) = v k := by
  induction m generalizing e with
  | zero => omega
  | succ m ih =>
    rw [List.range_succ, List.foldl_append]
    simp only [List.foldl_cons, List.foldl_nil]
    by_cases hkm : k = m
    · subst hkm
      rw [getCell_setCell_self _ _ _ (by positivity)
        (by rw [foldl_setCell_size]; exact hb)]
    · rw [getCell_setCell_ne _ _ _ _ (by
        have h2 : (k : Int) ≠ (m : Int) := by exact_mod_cast hkm
        omega)]
      apply ih
      all_goals first | omega | exact hb

theorem zeroEntityRow_size (e : Array Int) (off : Int) (m : Nat) :
    (zeroEntityRow e off m).size = e.size := by
  unfold zeroEntityRow
  rw [show (fun acc (i : Nat) => setCell acc (off + (m : Int) + (i : Int)) (-1)) =
    (fun acc (i : Nat) => setCell acc ((off + (m : Int)) + (i : Int)) ((fun _ => (-1 : Int)) i))
    from rfl]
  rw [foldl_setCell_size, foldl_setCell_size]

theorem getCell_zeroEntityRow_word (e : Array Int) (off : Int) (m : Nat) (k : Nat)
    (hk : k < m) (h0 : 0 ≤ off) (hb : (off + (k : Int)).toNat < e.size) :
    getCell (zeroEntityRow e off m) (off + (k : Int)) = if k = 0 then 1 else 0 := by
  unfold zeroEntityRow
  rw [show (fun acc (i : Nat) => setCell acc (off + (m : Int) + (i : Int)) (-1)) =
    (fun acc (i : Nat) => setCell acc ((off + (m : Int)) + (i : Int)) ((fun _ => (-1 : Int)) i))
    from rfl]
  rw [foldl_setCell_get_outside _ _ _ _ _ (by omega)]
  exact foldl_setCell_get_inside e off m _ k hk h0 hb

theorem getCell_zeroEntityRow_off (e : Array Int) (off : Int) (m : Nat) (k : Nat)
    (hk : k < m) (h0 : 0 ≤ off) (hb : (off + (m : Int) + (k : Int)).toNat < e.size) :
    getCell (zeroEntityRow e off m) (off + (m : Int) + (k : Int)) = -1 := by
  unfold zeroEntityRow
  rw [show (fun acc (i : Nat) => setCell acc (off + (m : Int) + (i : Int)) (-1)) =
    (fun acc (i : Nat) => setCell acc ((off + (m : Int)) + (i : Int)) ((fun _ => (-1 : Int)) i))
    from rfl]
  rw [foldl_setCell_get_inside _ _ _ _ k hk (by omega)
    (by rw [foldl_setCell_size]; exact hb)]

theorem getCell_zeroEntityRow_outside (e : Array Int) (off : Int) (m : Nat) (j : Int)
    (h : j < off ∨ off + (2 * m : Int) ≤ j) :
    getCell (zeroEntityRow e off m) j = getCell e j := by
  unfold zeroEntityRow
  rw [show (fun acc (i : Nat) => setCell acc (off + (m : Int) + (i : Int)) (-1)) =
    (fun acc (i : Nat) => setCell acc ((off + (m : Int)) + (i : Int)) ((fun _ => (-1 : Int)) i))
    from rfl]
  rw [foldl_setCell_get_outside _ _ _ _ _ (by push_cast at h ⊢; omega)]
  rw [foldl_setCell_get_outside _ _ _ _ _ (by push_cast at h ⊢; omega)]

end Entity

namespace Entity

/-- The table-`a` mask bit a tag name contributes. -/
def tagMaskAt (csr : List CompCfg) (nm : String) (a : Nat) : Nat :=
  match csr.find? (·.name = nm) with
  | some c => if c.arrayIndex = (a : Int) then c.mask else 0
  | none => 0

/-- The table-`a` bits contributed by a tag-name list. -/
def tagOrC (csr : List CompCfg) (cs : List String) (a : Nat) : Nat :=
  cs.foldr (fun nm acc => tagMaskAt csr nm a ||| acc) 0

/-- The table-`a` mask bit one exported field contributes. -/
def fieldMaskAt (ps : List PropCfg) (n : String) (a : Nat) : Nat :=
  match ps.find? (·.name = n) with
  | some p => if p.array = (a : Int) then p.componentMask else 0
  | none => 0

/-- The table-`a` bits contributed by an exported field list. -/
def fieldOrP (ps : List PropCfg) (fs : List (String × Int)) (a : Nat) : Nat :=
  fs.foldr (fun fv acc => fieldMaskAt ps fv.1 a ||| acc) 0

/-- The mask word an imported entity ends with in table `a`. -/
def entWord (csr : List CompCfg) (ps : List PropCfg) (ent : ExportEntity) (a : Nat) : Nat :=
  wordBase a ||| tagOrC csr ent.tags a ||| fieldOrP ps ent.fields a

/-- The state after OR-ing a component bit into an entity's mask word. -/
def EntitySystem.withWordOr (S : EntitySystem) (e : Nat) (c : CompCfg) : EntitySystem :=
  { S with
    e := setCell S.e (((e * S.s.sizeOf : Nat) : Int) + c.arrayIndex)
      ((S.wordAt e c.arrayIndex ||| c.mask : Nat) : Int) }

/-- `addComponent` of a tag component: the mask word gains the bit and the
entry dispatcher runs; nothing else changes. -/
theorem addComponent_tag (S : EntitySystem) (e : Nat) (nm : String) (c : CompCfg)
    (hf : S.comps.find? (·.name = nm) = some c) (htag : c.propNames.length = 0) :
    S.addComponent e nm = .ok ((S.withWordOr e c).runEntry e
      (S.wordAt e c.arrayIndex) (S.wordAt e c.arrayIndex ||| c.mask)) := by
  unfold EntitySystem.addComponent
  simp only [hf]
  rw [if_neg (by simp [htag])]
  rfl

end Entity

namespace Entity

/-- The tag loop of a template: each listed tag component's bit is OR-ed
into the entity's word for its table; every other observable is unchanged. -/
theorem tags_fold (cs : List String) (T : EntitySystem) (e : Nat)
    (hsz : T.s.sizeOf = 2 * T.maskSize)
    (hbound : (e + 1) * T.s.sizeOf ≤ T.e.size)
    (hcs : ∀ nm ∈ cs, ∃ c : CompCfg, T.comps.find? (·.name = nm) = some c ∧
      c.propNames.length = 0 ∧ 0 ≤ c.arrayIndex ∧ c.arrayIndex < (T.maskSize : Int)) :
    ∃ T', cs.foldlM (fun S c => S.addComponent e c) T = .ok T' ∧
      (∀ a : Nat, a < T.maskSize →
        T'.wordAt e a = T.wordAt e a ||| tagOrC T.comps cs a) ∧
      (∀ j : Int, (∀ a : Nat, a < T.maskSize →
          j ≠ ((e * T.s.sizeOf : Nat) : Int) + (a : Int)) →
        getCell T'.e j = getCell T.e j) ∧
      T'.e.size = T.e.size ∧ T'.tables = T.tables ∧ T'.s = T.s ∧
      T'.comps = T.comps ∧ T'.props = T.props ∧ T'.maskSize = T.maskSize := by
  induction cs generalizing T with
  | nil =>
    exact ⟨T, rfl, by simp [tagOrC], fun j h => rfl, rfl, rfl, rfl, rfl, rfl, rfl⟩
  | cons nm rest ih =>
    obtain ⟨c, hf, htag, hc0, hc1⟩ := hcs nm (List.mem_cons_self nm rest)
    have hstep := addComponent_tag T e nm c hf htag
    have hMle : T.maskSize ≤ T.s.sizeOf := by omega
    have hrowb : ∀ b : Nat, b < T.maskSize →
        (((e * T.s.sizeOf : Nat) : Int) + (b : Int)).toNat < T.e.size := by
      intro b hb
      have : e * T.s.sizeOf + b < T.e.size := by nlinarith
      omega
    set T1 := (T.withWordOr e c).runEntry e (T.wordAt e c.arrayIndex)
      (T.wordAt e c.arrayIndex ||| c.mask) with hT1
    have hT1word : ∀ b : Nat, b < T.maskSize →
        T1.wordAt e b = T.wordAt e b ||| tagMaskAt T.comps nm b := by
      intro b hb
      show (getCell (setCell T.e (((e * T.s.sizeOf : Nat) : Int) + c.arrayIndex)
        ((T.wordAt e c.arrayIndex ||| c.mask : Nat) : Int))
        (((e * T.s.sizeOf : Nat) : Int) + (b : Int))).toNat = _
      unfold tagMaskAt
      rw [hf]
      dsimp only
      by_cases hcb : c.arrayIndex = (b : Int)
      · rw [if_pos hcb]
        rw [← hcb]
        rw [getCell_setCell_self _ _ _ (by positivity)
          (by rw [hcb]; exact hrowb b hb)]
        simp
      · rw [getCell_setCell_ne _ _ _ _ (by omega), if_neg hcb]
        simp [EntitySystem.wordAt]
    have hT1other : ∀ j : Int, (∀ a : Nat, a < T.maskSize →
        j ≠ ((e * T.s.sizeOf : Nat) : Int) + (a : Int)) →
        getCell T1.e j = getCell T.e j := by
      intro j hj
      show getCell (setCell T.e (((e * T.s.sizeOf : Nat) : Int) + c.arrayIndex) _) j =
        getCell T.e j
      refine getCell_setCell_ne _ _ _ _ ?_
      have := hj c.arrayIndex.toNat (by omega)
      omega
    have hT1size : T1.e.size = T.e.size := by
      show (setCell T.e _ _).size = T.e.size
      exact setCell_size _ _ _
    obtain ⟨T', hfold, hword, hother, hsize, htabs, hs, hcomps, hprops, hmask⟩ :=
      ih T1 (by show T.s.sizeOf = 2 * T.maskSize; exact hsz)
        (by show (e + 1) * T.s.sizeOf ≤ T1.e.size; rw [hT1size]; exact hbound)
        (by
          intro nm2 hnm2
          exact hcs nm2 (List.mem_cons_of_mem nm hnm2))
    refine ⟨T', ?_, ?_, ?_, ?_, ?_, ?_, ?_, ?_, ?_⟩
    · rw [List.foldlM_cons, hstep]
      rw [show (Bind.bind (Except.ok T1) fun x =>
        List.foldlM (fun S c => S.addComponent e c) x rest) =
        List.foldlM (fun S c => S.addComponent e c) T1 rest from rfl]
      exact hfold
    · intro a ha
      rw [hword a ha, hT1word a ha]
      unfold tagOrC
      rw [List.foldr_cons]
      rw [Nat.lor_assoc]
      rfl
    · intro j hj
      rw [hother j hj, hT1other j hj]
    · rw [hsize, hT1size]
    · exact htabs
    · exact hs
    · exact hcomps
    · exact hprops
    · exact hmask

end Entity

namespace Entity

theorem getD_set_self (l : List Nat) (i : Nat) (v : Nat) (h : i < l.length) :
    (l.set i v).getD i 0 = v := by
  rw [List.getD_eq_getElem?_getD, List.getElem?_set_self (by simpa using h)]
  rfl

theorem getD_set_ne (l : List Nat) (i j : Nat) (v : Nat) (h : i ≠ j) :
    (l.set i v).getD j 0 = l.getD j 0 := by
  rw [List.getD_eq_getElem?_getD, List.getElem?_set_ne h, ← List.getD_eq_getElem?_getD]

/-- Sequential allocation on a table with no free slots: the next row index
is handed out and the high-water mark advances. -/
theorem insertRow_seq (ts : TState) (arr : Array Int) (hrc : ts.removeCounter = 0) :
    ts.insertRow arr none = .ok (ts.rowCounter,
      growIfNeeded arr ts.rowCounter ts.sizeOf, { ts with rowCounter := ts.rowCounter + 1 }) := by
  unfold TState.insertRow
  dsimp only
  rw [if_neg (by omega)]
  rfl

end Entity

namespace Entity

/-- Shape facts of a data table the import path relies on. -/
def TableShape (w : Nat) (arr : Array Int) (ts : TState) : Prop :=
  ts.sizeOf = w ∧ ts.removeCounter = 0 ∧ ts.skipOnRemove = none ∧
    w ∣ arr.size ∧ 0 < arr.size ∧ ts.rowCounter * w ≤ arr.size

/-- Registry facts of one prop name. -/
def PropOK (T : EntitySystem) (n : String) (p : PropCfg) : Prop :=
  T.props.find? (·.name = n) = some p ∧ 0 ≤ p.array ∧ p.array < (T.maskSize : Int) ∧
    1 ≤ p.offset ∧ p.offset < (p.sizeOf : Int) ∧ 2 ≤ p.sizeOf

theorem lookup_some_mem (rows : List (Int × Nat)) (a : Int) (r : Nat)
    (h : rows.lookup a = some r) : (a, r) ∈ rows := by
  induction rows with
  | nil => cases h
  | cons ar rest ih =>
    rw [List.lookup_cons] at h
    by_cases hk : a = ar.1
    · rw [show (a == ar.1) = true by simpa using hk] at h
      injection h with h
      subst h
      subst hk
      exact List.mem_cons_self _ _
    · rw [show (a == ar.1) = false by simpa using hk] at h
      exact List.mem_cons_of_mem _ (ih h)

theorem lookup_nodup_unique (rows : List (Int × Nat)) (a : Int) (x r : Nat)
    (hnd : (rows.map (fun ar => ar.1)).Nodup) (hmem : (a, x) ∈ rows)
    (h : rows.lookup a = some r) : x = r := by
  induction rows with
  | nil => cases h
  | cons ar rest ih =>
    rw [List.lookup_cons] at h
    rw [List.map_cons, List.nodup_cons] at hnd
    rcases List.mem_cons.mp hmem with heq | hmem2
    · subst heq
      simp at h
      exact h
    · by_cases hk : a = ar.1
      · exfalso
        exact hnd.1 (hk ▸ (List.mem_map.mpr ⟨(a, x), hmem2, rfl⟩))
      · rw [show (a == ar.1) = false by simpa using hk] at h
        exact ih hnd.2 hmem2 h

theorem lookup_none_not_mem (rows : List (Int × Nat)) (a : Int)
    (h : rows.lookup a = none) : a ∉ rows.map (fun ar => ar.1) := by
  induction rows with
  | nil => simp
  | cons ar rest ih =>
    rw [List.lookup_cons] at h
    by_cases hk : a = ar.1
    · rw [show (a == ar.1) = true by simpa using hk] at h
      cases h
    · rw [show (a == ar.1) = false by simpa using hk] at h
      simp only [List.map_cons, List.mem_cons]
      push_neg
      exact ⟨hk, ih h⟩

end Entity

namespace Entity

set_option maxHeartbeats 1000000

theorem tableAt_setTable_ne (S : EntitySystem) (a b : Int) (arr : Array Int)
    (ts : TState) (hne : b ≠ a) (ha : 0 ≤ a) :
    (S.setTable a arr ts).tableAt b = S.tableAt b := by
  unfold EntitySystem.setTable EntitySystem.tableAt
  by_cases hb : 0 ≤ b
  · rw [if_pos hb, if_pos hb]
    rw [List.getD_eq_getElem?_getD, List.getD_eq_getElem?_getD,
      List.getElem?_set_ne (by omega)]
  · rw [if_neg hb, if_neg hb]

theorem setTable_tables_length (S : EntitySystem) (a : Int) (arr : Array Int)
    (ts : TState) : (S.setTable a arr ts).tables.length = S.tables.length := by
  unfold EntitySystem.setTable
  exact List.length_set S.tables a.toNat _

theorem grow_fits (w n : Nat) (arr : Array Int) (hd : w ∣ arr.size) (hp : 0 < arr.size)
    (hb : n * w ≤ arr.size) (hw : 0 < w) :
    (n + 1) * w ≤ (growIfNeeded arr n w).size ∧ w ∣ (growIfNeeded arr n w).size ∧
      0 < (growIfNeeded arr n w).size := by
  obtain ⟨k, hk⟩ := hd
  rw [growIfNeeded_size]
  split
  · refine ⟨?_, ⟨2 * k, by rw [hk]; ring⟩, by omega⟩
    have hws : w ≤ arr.size := Nat.le_of_dvd hp ⟨k, hk⟩
    have hsucc : (n + 1) * w = n * w + w := by ring
    omega
  · rename_i hlt
    push_neg at hlt
    have hnk : n < k := by
      by_contra hcon
      push_neg at hcon
      have h4 : k * w ≤ n * w := Nat.mul_le_mul_right w hcon
      have h5 : k * w = w * k := by ring
      omega
    refine ⟨?_, ⟨k, hk⟩, hp⟩
    have h2 : (n + 1) * w ≤ k * w := Nat.mul_le_mul_right w (by omega)
    have h3 : k * w = w * k := by ring
    omega

/-- The field loop of a template on a well-shaped import state: each field
resolves its prop, allocates (once per table, cached) a fresh row, records
the flat row offset in the entity's offset word, writes the value, and ORs
the component bit into the mask accumulator; previously stored table
content, other rows of the index table, and the mask words are untouched. -/
theorem fields_fold (fs : List (String × Int)) (T : EntitySystem) (e : Nat)
    (masks : List Nat) (rows : List (Int × Nat))
    (hsz : T.s.sizeOf = 2 * T.maskSize)
    (hbound : (e + 1) * T.s.sizeOf ≤ T.e.size)
    (hmlen : masks.length = T.maskSize)
    (hfs : ∀ fv ∈ fs, ∃ p : PropCfg, PropOK T fv.1 p ∧
      ∃ arr ts, T.tableAt p.array = some (arr, ts) ∧ TableShape p.sizeOf arr ts)
    (hnodup : (fs.map (fun fv => fv.1)).Nodup)
    (hpair : ∀ fv ∈ fs, ∀ fv2 ∈ fs, fv.1 ≠ fv2.1 →
      ∀ p p2 : PropCfg, T.props.find? (·.name = fv.1) = some p →
        T.props.find? (·.name = fv2.1) = some p2 →
        p.array = p2.array → p.offset ≠ p2.offset)
    (hkeys : (rows.map (fun ar => ar.1)).Nodup)
    (hcache : ∀ ar ∈ rows, ∃ arr ts, T.tableAt ar.1 = some (arr, ts) ∧
      ar.2 < ts.rowCounter ∧ T.offAt e ar.1 = ((ar.2 * ts.sizeOf : Nat) : Int))
    (hfresh : ∀ fv ∈ fs, ∀ p : PropCfg, T.props.find? (·.name = fv.1) = some p →
      rows.lookup p.array = none → T.offAt e p.array < 0) :
    ∃ T' masks', T.addComponentsAux e ((e * T.s.sizeOf : Nat) : Int)
        (fs.map fun fv => TEntry.field fv.1 fv.2) masks rows = .ok (T', masks') ∧
      masks'.length = masks.length ∧
      (∀ a : Nat, a < T.maskSize →
        masks'.getD a 0 = masks.getD a 0 ||| fieldOrP T.props fs a) ∧
      (∀ j : Int, (∀ a : Nat, a < T.maskSize →
          j ≠ ((e * T.s.sizeOf : Nat) : Int) + (T.maskSize : Int) + (a : Int)) →
        getCell T'.e j = getCell T.e j) ∧
      T'.e.size = T.e.size ∧
      T'.comps = T.comps ∧ T'.props = T.props ∧ T'.maskSize = T.maskSize ∧ T'.s = T.s ∧
      (∀ fv ∈ fs, T'.getValue e fv.1 = .ok fv.2) ∧
      (∀ fv ∈ fs, ∀ p : PropCfg, T.props.find? (·.name = fv.1) = some p →
        ∃ r arr2 ts2, T'.tableAt p.array = some (arr2, ts2) ∧
          T'.offAt e p.array = ((r * p.sizeOf : Nat) : Int) ∧ r < ts2.rowCounter) ∧
      (∀ ar ∈ rows, ∃ arr2 ts2, T'.tableAt ar.1 = some (arr2, ts2) ∧
        ar.2 < ts2.rowCounter ∧ T'.offAt e ar.1 = ((ar.2 * ts2.sizeOf : Nat) : Int)) ∧
      (∀ b : Int, ∀ arr ts, T.tableAt b = some (arr, ts) →
        ∃ arr2 ts2, T'.tableAt b = some (arr2, ts2) ∧
          ts2.sizeOf = ts.sizeOf ∧ ts2.combinedMask = ts.combinedMask ∧
          ts2.isEntityTable = ts.isEntityTable ∧ ts.rowCounter ≤ ts2.rowCounter ∧
          (TableShape ts.sizeOf arr ts → TableShape ts.sizeOf arr2 ts2) ∧
          (∀ j : Int, 0 ≤ j → j < ((ts.rowCounter * ts.sizeOf : Nat) : Int) →
            j.toNat < arr.size →
            (∀ ar ∈ rows, ar.1 = b →
              ¬ (((ar.2 * ts.sizeOf : Nat) : Int) ≤ j ∧
                j < (((ar.2 + 1) * ts.sizeOf : Nat) : Int))) →
            getCell arr2 j = getCell arr j)) ∧
      (∀ ar ∈ rows, ∀ arr ts, T.tableAt ar.1 = some (arr, ts) →
        ∀ k : Int, 0 ≤ k → k < ((ts.sizeOf : Nat) : Int) →
        (∀ fv ∈ fs, ∀ p2 : PropCfg, T.props.find? (·.name = fv.1) = some p2 →
          p2.array = ar.1 → p2.offset ≠ k) →
        ∀ arr2 ts2, T'.tableAt ar.1 = some (arr2, ts2) →
        getCell arr2 (((ar.2 * ts.sizeOf : Nat) : Int) + k) =
          getCell arr (((ar.2 * ts.sizeOf : Nat) : Int) + k)) := by
  induction fs generalizing T masks rows with
  | nil =>
    refine ⟨T, masks, rfl, rfl, ?_, fun j h => rfl, rfl, rfl, rfl, rfl, rfl, ?_, ?_, ?_, ?_, ?_⟩
    · intro a ha
      simp [fieldOrP]
    · intro fv hfv
      cases hfv
    · intro fv hfv
      cases hfv
    · intro ar har
      exact hcache ar har
    · intro b arr ts htb
      exact ⟨arr, ts, htb, rfl, rfl, rfl, le_refl _, fun h => h, fun j h0 h1 h2 h3 => rfl⟩
    · intro ar har arr ts htb k hk0 hk1 hcl arr2 ts2 htb2
      rw [htb] at htb2
      injection htb2 with htb2
      injection htb2 with h1 h2
      subst h1
      rfl
  | cons fv fs ih =>
    obtain ⟨p, hpok, arr, ts, htab, hshape⟩ := hfs fv (List.mem_cons_self fv fs)
    obtain ⟨hfind, hp0, hp1, hoff1, hoff2, hw2⟩ := hpok
    obtain ⟨hts_w, hts_rc, hts_skip, hdvd, hpos, hrcb⟩ := hshape
    have htlen : p.array.toNat < T.tables.length := tableAt_length T p.array (arr, ts) htab
    have hMle : T.maskSize ≤ T.s.sizeOf := by omega
    have hwordb : ∀ b : Nat, b < T.maskSize →
        ((((e * T.s.sizeOf : Nat) : Int) + (T.maskSize : Int) + (b : Int)).toNat < T.e.size) := by
      intro b hb
      have h2 : e * T.s.sizeOf + 2 * T.maskSize ≤ T.e.size := by nlinarith
      omega
    rcases hlk : rows.lookup p.array with _ | r
    · -- the table has no cached row yet: allocate one
      have hv : T.offAt e p.array < 0 :=
        hfresh fv (List.mem_cons_self fv fs) p hfind hlk
      set arr1 := growIfNeeded arr ts.rowCounter ts.sizeOf with harr1
      set arrB := setCell arr1 ((ts.rowCounter * p.sizeOf : Nat) : Int) (e : Int) with harrB
      set ts1 : TState := { ts with rowCounter := ts.rowCounter + 1 } with hts1
      set T1 := T.setTable p.array arrB ts1 with hT1
      set T2 : EntitySystem := { T1 with
        e := setCell T1.e (((e * T.s.sizeOf : Nat) : Int) + (T.maskSize : Int) + p.array)
          ((ts.rowCounter * p.sizeOf : Nat) : Int) } with hT2
      set T3 := T2.setTable p.array
        (setCell arrB (((ts.rowCounter * p.sizeOf : Nat) : Int) + p.offset) fv.2) ts1 with hT3
      set masks2 := masks.set p.array.toNat
        (masks.getD p.array.toNat 0 ||| p.componentMask) with hmasks2
      have haux : T.addComponentsAux e ((e * T.s.sizeOf : Nat) : Int)
          ((fv :: fs).map fun fv => TEntry.field fv.1 fv.2) masks rows =
          T3.addComponentsAux e ((e * T.s.sizeOf : Nat) : Int)
            (fs.map fun fv => TEntry.field fv.1 fv.2) masks2 ((p.array, ts.rowCounter) :: rows) := by
        rw [List.map_cons]
        simp only [EntitySystem.addComponentsAux, hfind, hlk]
        rw [if_neg (by
          show ¬ (getCell T.e (((e * T.s.sizeOf : Nat) : Int) + (T.maskSize : Int) + p.array) ≥ 0)
          exact not_le.mpr hv)]
        simp only [htab]
        rw [insertRow_seq ts arr hts_rc]
        simp only [ebind_ok, ebind_pure, epure]
        rw [tableAt_update_e]
        rw [tableAt_setTable_self T p.array arrB ts1 hp0 htlen]
        rw [if_pos hp0]
        rfl
      have hT3e : T3.e = setCell T.e
          (((e * T.s.sizeOf : Nat) : Int) + (T.maskSize : Int) + p.array)
          ((ts.rowCounter * p.sizeOf : Nat) : Int) := rfl
      have hT3esize : T3.e.size = T.e.size := by
        rw [hT3e, setCell_size]
      have hT2len : p.array.toNat < T2.tables.length := by
        show p.array.toNat < (T.setTable p.array arrB ts1).tables.length
        rw [setTable_tables_length]
        exact htlen
      have hT3tabP : T3.tableAt p.array =
          some (setCell arrB (((ts.rowCounter * p.sizeOf : Nat) : Int) + p.offset) fv.2, ts1) :=
        tableAt_setTable_self T2 p.array _ ts1 hp0 hT2len
      have hT3tabNe : ∀ b : Int, b ≠ p.array → T3.tableAt b = T.tableAt b := by
        intro b hb
        rw [hT3]
        rw [tableAt_setTable_ne T2 p.array b _ ts1 hb hp0]
        rw [hT2]
        rw [tableAt_update_e]
        rw [hT1]
        exact tableAt_setTable_ne T p.array b arrB ts1 hb hp0
      have hgrow := grow_fits ts.sizeOf ts.rowCounter arr
        (by rw [hts_w]; exact hdvd) hpos (by rw [hts_w]; exact hrcb) (by omega)
      have harrCsize : (setCell arrB (((ts.rowCounter * p.sizeOf : Nat) : Int) + p.offset)
          fv.2).size = arr1.size := by
        rw [setCell_size, harrB, setCell_size]
      have hshapeC : TableShape p.sizeOf
          (setCell arrB (((ts.rowCounter * p.sizeOf : Nat) : Int) + p.offset) fv.2) ts1 := by
        refine ⟨by show ts.sizeOf = p.sizeOf; exact hts_w,
          by show ts.removeCounter = 0; exact hts_rc,
          by show ts.skipOnRemove = none; exact hts_skip, ?_, ?_, ?_⟩
        · rw [harrCsize, ← hts_w]
          exact hgrow.2.1
        · rw [harrCsize]
          exact hgrow.2.2
        · rw [harrCsize]
          show (ts.rowCounter + 1) * p.sizeOf ≤ arr1.size
          rw [← hts_w]
          exact hgrow.1
      have hoffP : T3.offAt e p.array = ((ts.rowCounter * p.sizeOf : Nat) : Int) := by
        show getCell T3.e (((e * T.s.sizeOf : Nat) : Int) + (T.maskSize : Int) + p.array) = _
        rw [hT3e]
        refine getCell_setCell_self _ _ _ (by positivity) ?_
        have hb := hwordb p.array.toNat (by omega)
        rw [Int.toNat_of_nonneg hp0] at hb
        exact hb
      have hoffNe : ∀ b : Int, b ≠ p.array → T3.offAt e b = T.offAt e b := by
        intro b hb
        show getCell T3.e (((e * T.s.sizeOf : Nat) : Int) + (T.maskSize : Int) + b) = _
        rw [hT3e]
        exact getCell_setCell_ne _ _ _ _ (by omega)
      have hsz3 : T3.s.sizeOf = 2 * T3.maskSize := hsz
      have hbound3 : (e + 1) * T3.s.sizeOf ≤ T3.e.size := by
        show (e + 1) * T.s.sizeOf ≤ T3.e.size
        rw [hT3esize]
        exact hbound
      have hmlen3 : masks2.length = T3.maskSize := by
        show masks2.length = T.maskSize
        rw [hmasks2, List.length_set]
        exact hmlen
      have hfs3 : ∀ fv2 ∈ fs, ∃ p2 : PropCfg, PropOK T3 fv2.1 p2 ∧
          ∃ arrx tsx, T3.tableAt p2.array = some (arrx, tsx) ∧
            TableShape p2.sizeOf arrx tsx := by
        intro fv2 hfv2
        obtain ⟨p2, hpok2, arrx, tsx, htabx, hshapex⟩ := hfs fv2 (List.mem_cons_of_mem fv hfv2)
        refine ⟨p2, hpok2, ?_⟩
        by_cases hbb : p2.array = p.array
        · rw [hbb] at htabx
          rw [htab] at htabx
          injection htabx with htabx
          injection htabx with he1 he2
          subst he1
          subst he2
          have hps : p2.sizeOf = p.sizeOf := by
            obtain ⟨hx, -⟩ := hshapex
            omega
          rw [hbb, hps]
          exact ⟨_, _, hT3tabP, hshapeC⟩
        · rw [← hT3tabNe p2.array hbb] at htabx
          exact ⟨arrx, tsx, htabx, hshapex⟩
      have hnodup3 : (fs.map (fun fv => fv.1)).Nodup := by
        rw [List.map_cons, List.nodup_cons] at hnodup
        exact hnodup.2
      have hpair3 : ∀ fv2 ∈ fs, ∀ fv3 ∈ fs, fv2.1 ≠ fv3.1 →
          ∀ q q2 : PropCfg, T3.props.find? (·.name = fv2.1) = some q →
            T3.props.find? (·.name = fv3.1) = some q2 →
            q.array = q2.array → q.offset ≠ q2.offset := by
        intro fv2 h2 fv3 h3 hne q q2 hq hq2
        exact hpair fv2 (List.mem_cons_of_mem fv h2) fv3 (List.mem_cons_of_mem fv h3) hne q q2 hq hq2
      have hkeys3 : (((p.array, ts.rowCounter) :: rows).map (fun ar => ar.1)).Nodup := by
        rw [List.map_cons, List.nodup_cons]
        exact ⟨lookup_none_not_mem rows p.array hlk, hkeys⟩
      have hcache3 : ∀ ar ∈ (p.array, ts.rowCounter) :: rows,
          ∃ arrx tsx, T3.tableAt ar.1 = some (arrx, tsx) ∧
            ar.2 < tsx.rowCounter ∧ T3.offAt e ar.1 = ((ar.2 * tsx.sizeOf : Nat) : Int) := by
        intro ar har
        rcases List.mem_cons.mp har with heq | hmem
        · subst heq
          refine ⟨_, _, hT3tabP, by show ts.rowCounter < ts.rowCounter + 1; omega, ?_⟩
          rw [hoffP]
          show _ = ((ts.rowCounter * ts.sizeOf : Nat) : Int)
          rw [hts_w]
        · obtain ⟨arrx, tsx, htabx, hrx, hox⟩ := hcache ar hmem
          have hbne : ar.1 ≠ p.array := by
            intro hcon
            exact lookup_none_not_mem rows p.array hlk
              (hcon ▸ (List.mem_map.mpr ⟨ar, hmem, rfl⟩))
          rw [← hT3tabNe ar.1 hbne] at htabx
          refine ⟨arrx, tsx, htabx, hrx, ?_⟩
          rw [hoffNe ar.1 hbne]
          exact hox
      have hfresh3 : ∀ fv2 ∈ fs, ∀ p2 : PropCfg,
          T3.props.find? (·.name = fv2.1) = some p2 →
          ((p.array, ts.rowCounter) :: rows).lookup p2.array = none →
          T3.offAt e p2.array < 0 := by
        intro fv2 h2 p2 hq hlk2
        rw [List.lookup_cons] at hlk2
        by_cases hbb : p2.array = p.array
        · rw [show (p2.array == p.array) = true by simpa using hbb] at hlk2
          cases hlk2
        · rw [show (p2.array == p.array) = false by simpa using hbb] at hlk2
          rw [hoffNe p2.array hbb]
          exact hfresh fv2 (List.mem_cons_of_mem fv h2) p2 hq hlk2
      obtain ⟨T', masks', ihC1, ihLen, ihMasks, ihE, ihEsz, ihComps, ihProps, ihMask,
        ihS, ihVal, ihOff, ihCache, ihTab, ihSlot⟩ :=
        ih T3 masks2 ((p.array, ts.rowCounter) :: rows) hsz3 hbound3 hmlen3 hfs3
          hnodup3 hpair3 hkeys3 hcache3 hfresh3
      have hT3comps : T3.comps = T.comps := rfl
      have hT3props : T3.props = T.props := rfl
      have hT3mask : T3.maskSize = T.maskSize := rfl
      have hT3s : T3.s = T.s := rfl
      have hts1sz : ts1.sizeOf = ts.sizeOf := rfl
      have hP' : T'.props = T.props := ihProps.trans hT3props
      have hS' : T'.s = T.s := ihS.trans hT3s
      have hM' : T'.maskSize = T.maskSize := ihMask.trans hT3mask
      -- the head entry of the updated cache, seen at the end of the loop
      obtain ⟨arrF, tsF, htabF, hrcF, hoffF⟩ :=
        ihCache (p.array, ts.rowCounter) (List.mem_cons_self _ _)
      obtain ⟨arrF2, tsF2, htabF2, hsF2, hcmF2, hieF2, hrcF2, hshF2, hctF2⟩ :=
        ihTab p.array _ ts1 hT3tabP
      rw [htabF] at htabF2
      injection htabF2 with htabF2
      injection htabF2 with heF1 heF2
      subst heF1
      subst heF2
      have htsFsz : tsF.sizeOf = p.sizeOf := by
        rw [hsF2, hts1sz, hts_w]
      have hslotv : getCell arrF (((ts.rowCounter * ts1.sizeOf : Nat) : Int) + p.offset) =
          getCell (setCell arrB (((ts.rowCounter * p.sizeOf : Nat) : Int) + p.offset) fv.2)
            (((ts.rowCounter * ts1.sizeOf : Nat) : Int) + p.offset) := by
        refine ihSlot (p.array, ts.rowCounter) (List.mem_cons_self _ _) _ ts1 hT3tabP
          p.offset (by omega) (by rw [hts1sz, hts_w]; exact hoff2) ?_ arrF tsF htabF
        intro fv2 h2 p2 hq2 harr2
        have hname : fv.1 ≠ fv2.1 := by
          rw [List.map_cons, List.nodup_cons] at hnodup
          intro hcon
          exact hnodup.1 (hcon ▸ (List.mem_map.mpr ⟨fv2, h2, rfl⟩))
        have := hpair fv2 (List.mem_cons_of_mem fv h2) fv (List.mem_cons_self fv fs)
          (fun hcon => hname hcon.symm) p2 p (hT3props ▸ hq2) hfind harr2
        exact this
      have hbCast : ((ts.rowCounter * ts1.sizeOf : Nat) : Int) + p.offset =
          ((ts.rowCounter * p.sizeOf : Nat) : Int) + p.offset := by
        rw [hts1sz, hts_w]
      have hCslot : getCell (setCell arrB (((ts.rowCounter * p.sizeOf : Nat) : Int) + p.offset)
          fv.2) (((ts.rowCounter * p.sizeOf : Nat) : Int) + p.offset) = fv.2 := by
        refine getCell_setCell_self _ _ _ (by positivity) ?_
        rw [harrB, setCell_size, harr1]
        have h1 := hgrow.1
        have hgeq : (ts.rowCounter + 1) * ts.sizeOf = (ts.rowCounter + 1) * p.sizeOf := by
          rw [hts_w]
        have hsucc : (ts.rowCounter + 1) * p.sizeOf = ts.rowCounter * p.sizeOf + p.sizeOf := by
          ring
        omega
      have hvalHead : T'.getValue e fv.1 = .ok fv.2 := by
        have hfind' : T'.props.find? (·.name = fv.1) = some p := by
          rw [hP']
          exact hfind
        simp only [EntitySystem.getValue, hfind', htabF]
        have hoffF' : getCell T'.e (((e * T'.s.sizeOf : Nat) : Int) + (T'.maskSize : Int)
            + p.array) = ((ts.rowCounter * tsF.sizeOf : Nat) : Int) := hoffF
        rw [hoffF']
        rw [show ((ts.rowCounter * tsF.sizeOf : Nat) : Int) =
          ((ts.rowCounter * ts1.sizeOf : Nat) : Int) by rw [hsF2]]
        rw [hslotv, hbCast, hCslot]
        rfl
      refine ⟨T', masks', ?_, ?_, ?_, ?_, ?_, ?_, ?_, ?_, ?_, ?_, ?_, ?_, ?_, ?_⟩
      · rw [haux]
        exact ihC1
      · rw [ihLen, hmasks2, List.length_set]
      · intro a ha
        rw [ihMasks a (hT3mask ▸ ha)]
        have hcons : fieldOrP T.props (fv :: fs) a =
            fieldMaskAt T.props fv.1 a ||| fieldOrP T.props fs a := rfl
        rw [show fieldOrP T3.props fs a = fieldOrP T.props fs a from rfl, hcons]
        unfold fieldMaskAt
        rw [hfind]
        dsimp only
        by_cases haa : p.array = (a : Int)
        · rw [if_pos haa]
          rw [show a = p.array.toNat by omega]
          rw [getD_set_self masks p.array.toNat _ (by rw [hmlen]; omega)]
          rw [Nat.lor_assoc]
        · rw [if_neg haa]
          rw [hmasks2, getD_set_ne masks p.array.toNat a _ (by omega)]
          simp
      · intro j hj
        rw [ihE j (by
          intro a ha
          exact hj a (hT3mask ▸ ha))]
        rw [hT3e]
        refine getCell_setCell_ne _ _ _ _ ?_
        have := hj p.array.toNat (by omega)
        omega
      · rw [ihEsz, hT3esize]
      · exact ihComps.trans hT3comps
      · exact hP'
      · exact hM'
      · exact hS'
      · intro fv2 h2
        rcases List.mem_cons.mp h2 with heq | hmem
        · subst heq
          exact hvalHead
        · exact ihVal fv2 hmem
      · intro fv2 h2 p2 hq2
        rcases List.mem_cons.mp h2 with heq | hmem
        · subst heq
          rw [hfind] at hq2
          injection hq2 with hq2
          subst hq2
          refine ⟨ts.rowCounter, arrF, tsF, htabF, ?_, hrcF⟩
          rw [hoffF, htsFsz]
        · exact ihOff fv2 hmem p2 (hT3props ▸ hq2)
      · intro ar har
        exact ihCache ar (List.mem_cons_of_mem _ har)
      · intro b arr0 ts0 htb0
        by_cases hbb : b = p.array
        · subst hbb
          rw [htab] at htb0
          injection htb0 with htb0
          injection htb0 with hx1 hx2
          subst hx1
          subst hx2
          refine ⟨arrF, tsF, htabF, by rw [hsF2, hts1sz], by rw [hcmF2], by rw [hieF2],
            by have : ts.rowCounter ≤ ts1.rowCounter := by
                 show ts.rowCounter ≤ ts.rowCounter + 1; omega
               omega, ?_, ?_⟩
          · intro hsh0
            refine hshF2 ?_
            show TableShape ts.sizeOf _ _
            rw [hts_w]
            exact hshapeC
          · intro j hj0 hj1 hj2 hj3
            have hjlt : j < ((ts1.rowCounter * ts1.sizeOf : Nat) : Int) := by
              have : ts.rowCounter * ts.sizeOf ≤ ts1.rowCounter * ts1.sizeOf := by
                show ts.rowCounter * ts.sizeOf ≤ (ts.rowCounter + 1) * ts.sizeOf
                have : (ts.rowCounter + 1) * ts.sizeOf
                    = ts.rowCounter * ts.sizeOf + ts.sizeOf := by ring
                omega
              omega
            have harrCj : j.toNat < (setCell arrB (((ts.rowCounter * p.sizeOf : Nat) : Int)
                + p.offset) fv.2).size := by
              rw [harrCsize]
              have := hgrow.2.2
              have hg : arr.size ≤ arr1.size := by
                rw [harr1, growIfNeeded_size]
                split <;> omega
              omega
            have hct := hctF2 j hj0 hjlt harrCj (by
              intro ar har2 hareq
              rcases List.mem_cons.mp har2 with heq | hmem
              · subst heq
                intro hcon
                dsimp only at hcon
                rw [hts1sz] at hcon
                omega
              · exact hj3 ar hmem hareq)
            rw [hct]
            rw [getCell_setCell_ne _ _ _ _ (by
              have : ts.rowCounter * ts.sizeOf ≤ ts.rowCounter * p.sizeOf := by
                rw [hts_w]
              omega)]
            rw [harrB]
            rw [getCell_setCell_ne _ _ _ _ (by
              have : ts.rowCounter * ts.sizeOf ≤ ts.rowCounter * p.sizeOf := by
                rw [hts_w]
              omega)]
            rw [harr1]
            exact getCell_growIfNeeded arr _ _ j (fun h0 => hj2)
        · obtain ⟨arrx, tsx, htabx, h1, h2, h3, h4, h5, h6⟩ :=
            ihTab b arr0 ts0 (by rw [hT3tabNe b hbb]; exact htb0)
          refine ⟨arrx, tsx, htabx, h1, h2, h3, h4, h5, ?_⟩
          intro j hj0 hj1 hj2 hj3
          refine h6 j hj0 hj1 hj2 ?_
          intro ar har2 hareq
          rcases List.mem_cons.mp har2 with heq | hmem
          · subst heq
            exact absurd hareq.symm hbb
          · exact hj3 ar hmem hareq
      · intro ar har arr0 ts0 htb0 k hk0 hk1 hcl arr2x ts2x htb2x
        have hbne : ar.1 ≠ p.array := by
          intro hcon
          exact lookup_none_not_mem rows p.array hlk
            (hcon ▸ (List.mem_map.mpr ⟨ar, har, rfl⟩))
        refine ihSlot ar (List.mem_cons_of_mem _ har) arr0 ts0
          (by rw [hT3tabNe ar.1 hbne]; exact htb0) k hk0 hk1 ?_ arr2x ts2x htb2x
        intro fv2 h2 p2 hq2 harr2
        exact hcl fv2 (List.mem_cons_of_mem fv h2) p2 (hT3props ▸ hq2) harr2
    · -- the row is already cached for this table
      have hmem0 : (p.array, r) ∈ rows := lookup_some_mem rows p.array r hlk
      obtain ⟨arrC0, tsC0, htabC, hrC, hoffC⟩ := hcache _ hmem0
      dsimp only at htabC hrC hoffC
      rw [htab] at htabC
      injection htabC with htabC
      injection htabC with hy1 hy2
      subst hy1
      subst hy2
      set T2 : EntitySystem := { T with
        e := setCell T.e (((e * T.s.sizeOf : Nat) : Int) + (T.maskSize : Int) + p.array)
          ((r * p.sizeOf : Nat) : Int) } with hT2
      set T3 := T2.setTable p.array
        (setCell arr (((r * p.sizeOf : Nat) : Int) + p.offset) fv.2) ts with hT3
      set masks2 := masks.set p.array.toNat
        (masks.getD p.array.toNat 0 ||| p.componentMask) with hmasks2
      have haux : T.addComponentsAux e ((e * T.s.sizeOf : Nat) : Int)
          ((fv :: fs).map fun fv => TEntry.field fv.1 fv.2) masks rows =
          T3.addComponentsAux e ((e * T.s.sizeOf : Nat) : Int)
            (fs.map fun fv => TEntry.field fv.1 fv.2) masks2 rows := by
        rw [List.map_cons]
        simp only [EntitySystem.addComponentsAux, hfind, hlk]
        simp only [ebind_ok, ebind_pure, epure]
        rw [tableAt_update_e, htab]
        rw [if_pos hp0]
      have hT3e : T3.e = setCell T.e
          (((e * T.s.sizeOf : Nat) : Int) + (T.maskSize : Int) + p.array)
          ((r * p.sizeOf : Nat) : Int) := rfl
      have hT3esize : T3.e.size = T.e.size := by
        rw [hT3e, setCell_size]
      have hT2len : p.array.toNat < T2.tables.length := htlen
      have hT3tabP : T3.tableAt p.array =
          some (setCell arr (((r * p.sizeOf : Nat) : Int) + p.offset) fv.2, ts) :=
        tableAt_setTable_self T2 p.array _ ts hp0 hT2len
      have hT3tabNe : ∀ b : Int, b ≠ p.array → T3.tableAt b = T.tableAt b := by
        intro b hb
        rw [hT3]
        rw [tableAt_setTable_ne T2 p.array b _ ts hb hp0]
        rw [hT2]
        exact tableAt_update_e T _ b
      have harrCsize : (setCell arr (((r * p.sizeOf : Nat) : Int) + p.offset) fv.2).size
          = arr.size := setCell_size _ _ _
      have hshapeC : TableShape p.sizeOf
          (setCell arr (((r * p.sizeOf : Nat) : Int) + p.offset) fv.2) ts := by
        refine ⟨hts_w, hts_rc, hts_skip, ?_, ?_, ?_⟩ <;> rw [harrCsize]
        · exact hdvd
        · exact hpos
        · exact hrcb
      have hoffP : T3.offAt e p.array = ((r * p.sizeOf : Nat) : Int) := by
        show getCell T3.e (((e * T.s.sizeOf : Nat) : Int) + (T.maskSize : Int) + p.array) = _
        rw [hT3e]
        refine getCell_setCell_self _ _ _ (by positivity) ?_
        have hb := hwordb p.array.toNat (by omega)
        rw [Int.toNat_of_nonneg hp0] at hb
        exact hb
      have hoffNe : ∀ b : Int, b ≠ p.array → T3.offAt e b = T.offAt e b := by
        intro b hb
        show getCell T3.e (((e * T.s.sizeOf : Nat) : Int) + (T.maskSize : Int) + b) = _
        rw [hT3e]
        exact getCell_setCell_ne _ _ _ _ (by omega)
      have hsz3 : T3.s.sizeOf = 2 * T3.maskSize := hsz
      have hbound3 : (e + 1) * T3.s.sizeOf ≤ T3.e.size := by
        show (e + 1) * T.s.sizeOf ≤ T3.e.size
        rw [hT3esize]
        exact hbound
      have hmlen3 : masks2.length = T3.maskSize := by
        show masks2.length = T.maskSize
        rw [hmasks2, List.length_set]
        exact hmlen
      have hfs3 : ∀ fv2 ∈ fs, ∃ p2 : PropCfg, PropOK T3 fv2.1 p2 ∧
          ∃ arrx tsx, T3.tableAt p2.array = some (arrx, tsx) ∧
            TableShape p2.sizeOf arrx tsx := by
        intro fv2 hfv2
        obtain ⟨p2, hpok2, arrx, tsx, htabx, hshapex⟩ := hfs fv2 (List.mem_cons_of_mem fv hfv2)
        refine ⟨p2, hpok2, ?_⟩
        by_cases hbb : p2.array = p.array
        · rw [hbb] at htabx
          rw [htab] at htabx
          injection htabx with htabx
          injection htabx with he1 he2
          subst he1
          subst he2
          have hps : p2.sizeOf = p.sizeOf := by
            obtain ⟨hx, -⟩ := hshapex
            omega
          rw [hbb, hps]
          exact ⟨_, _, hT3tabP, hshapeC⟩
        · rw [← hT3tabNe p2.array hbb] at htabx
          exact ⟨arrx, tsx, htabx, hshapex⟩
      have hnodup3 : (fs.map (fun fv => fv.1)).Nodup := by
        rw [List.map_cons, List.nodup_cons] at hnodup
        exact hnodup.2
      have hpair3 : ∀ fv2 ∈ fs, ∀ fv3 ∈ fs, fv2.1 ≠ fv3.1 →
          ∀ q q2 : PropCfg, T3.props.find? (·.name = fv2.1) = some q →
            T3.props.find? (·.name = fv3.1) = some q2 →
            q.array = q2.array → q.offset ≠ q2.offset := by
        intro fv2 h2 fv3 h3 hne q q2 hq hq2
        exact hpair fv2 (List.mem_cons_of_mem fv h2) fv3 (List.mem_cons_of_mem fv h3) hne q q2 hq hq2
      have hcache3 : ∀ ar ∈ rows,
          ∃ arrx tsx, T3.tableAt ar.1 = some (arrx, tsx) ∧
            ar.2 < tsx.rowCounter ∧ T3.offAt e ar.1 = ((ar.2 * tsx.sizeOf : Nat) : Int) := by
        intro ar har
        by_cases hbb : ar.1 = p.array
        · have hval : ar.2 = r := by
            have hmem2 : (p.array, ar.2) ∈ rows := by
              have : ar = (p.array, ar.2) := by
                rw [← hbb]
              rw [← this]
              exact har
            exact lookup_nodup_unique rows p.array ar.2 r hkeys hmem2 hlk
          rw [hbb, hval]
          refine ⟨_, _, hT3tabP, hrC, ?_⟩
          rw [hoffP, hts_w]
        · obtain ⟨arrx, tsx, htabx, hrx, hox⟩ := hcache ar har
          rw [← hT3tabNe ar.1 hbb] at htabx
          refine ⟨arrx, tsx, htabx, hrx, ?_⟩
          rw [hoffNe ar.1 hbb]
          exact hox
      have hfresh3 : ∀ fv2 ∈ fs, ∀ p2 : PropCfg,
          T3.props.find? (·.name = fv2.1) = some p2 →
          rows.lookup p2.array = none →
          T3.offAt e p2.array < 0 := by
        intro fv2 h2 p2 hq hlk2
        have hbb : p2.array ≠ p.array := by
          intro hcon
          rw [hcon, hlk] at hlk2
          cases hlk2
        rw [hoffNe p2.array hbb]
        exact hfresh fv2 (List.mem_cons_of_mem fv h2) p2 hq hlk2
      obtain ⟨T', masks', ihC1, ihLen, ihMasks, ihE, ihEsz, ihComps, ihProps, ihMask,
        ihS, ihVal, ihOff, ihCache, ihTab, ihSlot⟩ :=
        ih T3 masks2 rows hsz3 hbound3 hmlen3 hfs3
          hnodup3 hpair3 hkeys hcache3 hfresh3
      have hT3comps : T3.comps = T.comps := rfl
      have hT3props : T3.props = T.props := rfl
      have hT3mask : T3.maskSize = T.maskSize := rfl
      have hT3s : T3.s = T.s := rfl
      have hP' : T'.props = T.props := ihProps.trans hT3props
      have hS' : T'.s = T.s := ihS.trans hT3s
      have hM' : T'.maskSize = T.maskSize := ihMask.trans hT3mask
      obtain ⟨arrF, tsF, htabF, hrcF, hoffF⟩ := ihCache (p.array, r) hmem0
      dsimp only at htabF hrcF hoffF
      obtain ⟨arrF2, tsF2, htabF2, hsF2, hcmF2, hieF2, hrcF2, hshF2, hctF2⟩ :=
        ihTab p.array _ ts hT3tabP
      rw [htabF] at htabF2
      injection htabF2 with htabF2
      injection htabF2 with heF1 heF2
      subst heF1
      subst heF2
      have htsFsz : tsF.sizeOf = p.sizeOf := by
        rw [hsF2, hts_w]
      have hrowSlots : r * p.sizeOf + p.sizeOf ≤ arr.size := by
        have h1 : (r + 1) * p.sizeOf ≤ ts.rowCounter * p.sizeOf :=
          Nat.mul_le_mul_right _ (by omega)
        have h2 : (r + 1) * p.sizeOf = r * p.sizeOf + p.sizeOf := by ring
        have h3 : ts.rowCounter * p.sizeOf ≤ arr.size := hrcb
        omega
      have hslotv : getCell arrF (((r * ts.sizeOf : Nat) : Int) + p.offset) =
          getCell (setCell arr (((r * p.sizeOf : Nat) : Int) + p.offset) fv.2)
            (((r * ts.sizeOf : Nat) : Int) + p.offset) := by
        refine ihSlot (p.array, r) hmem0 _ ts hT3tabP
          p.offset (by omega) (by rw [hts_w]; exact hoff2) ?_ arrF tsF htabF
        intro fv2 h2 p2 hq2 harr2
        have hname : fv.1 ≠ fv2.1 := by
          rw [List.map_cons, List.nodup_cons] at hnodup
          intro hcon
          exact hnodup.1 (hcon ▸ (List.mem_map.mpr ⟨fv2, h2, rfl⟩))
        exact hpair fv2 (List.mem_cons_of_mem fv h2) fv (List.mem_cons_self fv fs)
          (fun hcon => hname hcon.symm) p2 p (hT3props ▸ hq2) hfind harr2
      have hbCast : ((r * ts.sizeOf : Nat) : Int) + p.offset =
          ((r * p.sizeOf : Nat) : Int) + p.offset := by
        rw [hts_w]
      have hCslot : getCell (setCell arr (((r * p.sizeOf : Nat) : Int) + p.offset)
          fv.2) (((r * p.sizeOf : Nat) : Int) + p.offset) = fv.2 := by
        refine getCell_setCell_self _ _ _ (by positivity) ?_
        omega
      have hvalHead : T'.getValue e fv.1 = .ok fv.2 := by
        have hfind' : T'.props.find? (·.name = fv.1) = some p := by
          rw [hP']
          exact hfind
        simp only [EntitySystem.getValue, hfind', htabF]
        have hoffF' : getCell T'.e (((e * T'.s.sizeOf : Nat) : Int) + (T'.maskSize : Int)
            + p.array) = ((r * tsF.sizeOf : Nat) : Int) := hoffF
        rw [hoffF']
        rw [show ((r * tsF.sizeOf : Nat) : Int) = ((r * ts.sizeOf : Nat) : Int) by rw [hsF2]]
        rw [hslotv, hbCast, hCslot]
        rfl
      refine ⟨T', masks', ?_, ?_, ?_, ?_, ?_, ?_, ?_, ?_, ?_, ?_, ?_, ?_, ?_, ?_⟩
      · rw [haux]
        exact ihC1
      · rw [ihLen, hmasks2, List.length_set]
      · intro a ha
        rw [ihMasks a (hT3mask ▸ ha)]
        have hcons : fieldOrP T.props (fv :: fs) a =
            fieldMaskAt T.props fv.1 a ||| fieldOrP T.props fs a := rfl
        rw [show fieldOrP T3.props fs a = fieldOrP T.props fs a from rfl, hcons]
        unfold fieldMaskAt
        rw [hfind]
        dsimp only
        by_cases haa : p.array = (a : Int)
        · rw [if_pos haa]
          rw [show a = p.array.toNat by omega]
          rw [getD_set_self masks p.array.toNat _ (by rw [hmlen]; omega)]
          rw [Nat.lor_assoc]
        · rw [if_neg haa]
          rw [hmasks2, getD_set_ne masks p.array.toNat a _ (by omega)]
          simp
      · intro j hj
        rw [ihE j (by
          intro a ha
          exact hj a (hT3mask ▸ ha))]
        rw [hT3e]
        refine getCell_setCell_ne _ _ _ _ ?_
        have := hj p.array.toNat (by omega)
        omega
      · rw [ihEsz, hT3esize]
      · exact ihComps.trans hT3comps
      · exact hP'
      · exact hM'
      · exact hS'
      · intro fv2 h2
        rcases List.mem_cons.mp h2 with heq | hmem
        · subst heq
          exact hvalHead
        · exact ihVal fv2 hmem
      · intro fv2 h2 p2 hq2
        rcases List.mem_cons.mp h2 with heq | hmem
        · subst heq
          rw [hfind] at hq2
          injection hq2 with hq2
          subst hq2
          refine ⟨r, arrF, tsF, htabF, ?_, hrcF⟩
          rw [hoffF, htsFsz]
        · exact ihOff fv2 hmem p2 (hT3props ▸ hq2)
      · intro ar har
        exact ihCache ar har
      · intro b arr0 ts0 htb0
        by_cases hbb : b = p.array
        · subst hbb
          rw [htab] at htb0
          injection htb0 with htb0
          injection htb0 with hx1 hx2
          subst hx1
          subst hx2
          refine ⟨arrF, tsF, htabF, by rw [hsF2], by rw [hcmF2], by rw [hieF2],
            hrcF2, ?_, ?_⟩
          · intro hsh0
            refine hshF2 ?_
            show TableShape ts.sizeOf _ _
            rw [hts_w]
            exact hshapeC
          · intro j hj0 hj1 hj2 hj3
            have harrCj : j.toNat < (setCell arr (((r * p.sizeOf : Nat) : Int)
                + p.offset) fv.2).size := by
              rw [harrCsize]
              exact hj2
            have hct := hctF2 j hj0 hj1 harrCj (by
              intro ar har2 hareq
              exact hj3 ar har2 hareq)
            rw [hct]
            have hjr := hj3 (p.array, r) hmem0 rfl
            dsimp only at hjr
            push_neg at hjr
            refine getCell_setCell_ne _ _ _ _ ?_
            by_cases hjlow : ((r * ts.sizeOf : Nat) : Int) ≤ j
            · have hjhigh := hjr hjlow
              have hsucc : (r + 1) * ts.sizeOf = r * ts.sizeOf + ts.sizeOf := by ring
              have hpo : r * p.sizeOf = r * ts.sizeOf := by rw [hts_w]
              have hq : p.sizeOf = ts.sizeOf := hts_w.symm
              omega
            · push_neg at hjlow
              have hpo : r * p.sizeOf = r * ts.sizeOf := by rw [hts_w]
              omega
        · obtain ⟨arrx, tsx, htabx, h1, h2, h3, h4, h5, h6⟩ :=
            ihTab b arr0 ts0 (by rw [hT3tabNe b hbb]; exact htb0)
          exact ⟨arrx, tsx, htabx, h1, h2, h3, h4, h5, h6⟩
      · intro ar har arr0 ts0 htb0 k hk0 hk1 hcl arr2x ts2x htb2x
        by_cases hbb : ar.1 = p.array
        · have hval : ar.2 = r := by
            have hmem2 : (p.array, ar.2) ∈ rows := by
              have heq2 : ar = (p.array, ar.2) := by
                rw [← hbb]
              rw [← heq2]
              exact har
            exact lookup_nodup_unique rows p.array ar.2 r hkeys hmem2 hlk
          rw [hbb] at htb0
          rw [htab] at htb0
          injection htb0 with htb0
          injection htb0 with hz1 hz2
          subst hz1
          subst hz2
          have hkne : p.offset ≠ k := by
            refine hcl fv (List.mem_cons_self fv fs) p hfind ?_
            rw [hbb]
          have hch := ihSlot ar har _ ts (by rw [hbb]; exact hT3tabP) k hk0
            (by rw [hts_w] at hk1; rw [hts_w]; exact hk1) ?claim arr2x ts2x
            (by rw [hbb] at htb2x ⊢; exact htb2x)
          case claim =>
            intro fv2 h2 p2 hq2 harr2
            exact hcl fv2 (List.mem_cons_of_mem fv h2) p2 (hT3props ▸ hq2) harr2
          rw [hval] at hch ⊢
          rw [hch]
          refine getCell_setCell_ne _ _ _ _ ?_
          have hpo : r * p.sizeOf = r * ts.sizeOf := by rw [hts_w]
          omega
        · refine ihSlot ar har arr0 ts0
            (by rw [hT3tabNe ar.1 hbb]; exact htb0) k hk0 hk1 ?_ arr2x ts2x htb2x
          intro fv2 h2 p2 hq2 harr2
          exact hcl fv2 (List.mem_cons_of_mem fv h2) p2 (hT3props ▸ hq2) harr2


end Entity
